import Mathlib

/-!
Verification development for the MRP (Material Requirements Planning) core of
the production-portal repository: a shallow embedding of
`database/mrp_service.py` (the snapshot aggregation, priority sorter,
allocation engine and shortage consolidator), followed by theorems about it.

Numeric quantities (Python numbers/floats) are modelled as `ℚ`; Python dicts
are modelled as insertion-ordered association lists with last-wins insert,
mirroring dict semantics; `str.strip` / `str.startswith` / `%m/%d/%Y`
parsing-formatting are modelled by explicit structural functions below.
-/

/-! ## Association lists modelling Python dicts -/

/-- Dict insert-or-overwrite: the value at an existing key is replaced in
place (keeping its position), a new key is appended at the end — exactly the
semantics of `d[k] = v` on a Python dict. -/
def dinsert {β : Type} (m : List (String × β)) (k : String) (v : β) : List (String × β) :=
  match m with
  | [] => [(k, v)]
  | (k', v') :: rest => if k' = k then (k', v) :: rest else (k', v') :: dinsert rest k v

/-- Dict lookup, `d.get(k)` returning `none` when absent. -/
def dget? {β : Type} (m : List (String × β)) (k : String) : Option β :=
  match m with
  | [] => none
  | (k', v') :: rest => if k' = k then some v' else dget? rest k

/-- Dict lookup with default, `d.get(k, dflt)`. -/
def dgetD {β : Type} (m : List (String × β)) (k : String) (dflt : β) : β :=
  (dget? m k).getD dflt

/-- Dict membership, `k in d`. -/
def dmem {β : Type} (m : List (String × β)) (k : String) : Bool :=
  (dget? m k).isSome

/-- `d[k] = f(d[k])` guarded by `if k in d` (no-op when the key is absent),
modelling the guarded in-place updates of the live pools in the source. -/
def dmodify {β : Type} (m : List (String × β)) (k : String) (f : β → β) : List (String × β) :=
  match m with
  | [] => []
  | (k', v') :: rest => if k' = k then (k', f v') :: rest else (k', v') :: dmodify rest k f

/-! ## Stable insertion sort (model of Python `list.sort(key=...)`, which is
a stable ascending sort) -/

/-- Insert `a` before the first element `b` with `le a b`; later-inserted
equal elements therefore land after earlier ones, giving stability. -/
def insertSorted {α : Type} (le : α → α → Bool) (a : α) : List α → List α
  | [] => [a]
  | b :: bs => if le a b then a :: b :: bs else b :: insertSorted le a bs

/-- Stable insertion sort by the boolean relation `le`. -/
def sortWith {α : Type} (le : α → α → Bool) : List α → List α
  | [] => []
  | a :: as => insertSorted le a (sortWith le as)

/-! ## String helpers (models of the Python string operations used) -/

/-- Whitespace test for the model of `str.strip()`. -/
def isSpaceChar (c : Char) : Bool :=
  c == ' ' || c == '\t' || c == '\n' || c == '\r'

/-- Model of Python `str.strip()`: drop whitespace from both ends. -/
def pyStrip (s : String) : String :=
  String.mk (((s.data.dropWhile isSpaceChar).reverse.dropWhile isSpaceChar).reverse)

/-- Model of `part_number.startswith('W')` (the reserved non-purchasable
part marker in `get_consolidated_shortages`). -/
def startsWithW (s : String) : Bool :=
  match s.data with
  | 'W' :: _ => true
  | _ => false

/-- Lexicographic order on char lists by code point — the model of Python's
string comparison used by `sorted(...)`. -/
def lexLe : List Char → List Char → Bool
  | [], _ => true
  | _ :: _, [] => false
  | a :: as, b :: bs =>
    if a.toNat < b.toNat then true
    else if b.toNat < a.toNat then false
    else lexLe as bs

/-- String order by code points, as Python compares strings. -/
def strLe (a b : String) : Bool := lexLe a.data b.data

/-! ## Number formatting: model of Python `f"{x:,.0f}"` / `f"{x:,.2f}"` -/

/-- Insert a comma after every third character of a reversed digit list. -/
def commaRev : List Char → List Char
  | a :: b :: c :: d :: rest => a :: b :: c :: ',' :: commaRev (d :: rest)
  | l => l

/-- Comma-grouped decimal rendering of a natural number. -/
def natCommas (n : Nat) : String :=
  String.mk ((commaRev (toString n).data.reverse).reverse)

/-- Round a rational to the nearest integer, ties to even — the rounding
Python's `format` applies for `.0f`. -/
def roundHalfEven (q : ℚ) : Int :=
  let f : Int := ⌊q⌋
  let r : ℚ := q - (f : ℚ)
  if r < 1/2 then f
  else if (1:ℚ)/2 < r then f + 1
  else if f % 2 = 0 then f else f + 1

/-- Model of `f"{q:,.0f}"`. -/
def fmt0 (q : ℚ) : String :=
  let i := roundHalfEven q
  if i < 0 then "-" ++ natCommas i.natAbs else natCommas i.natAbs

/-- Left-pad with `0` to two digits. -/
def pad2 (n : Nat) : String :=
  if n < 10 then "0" ++ toString n else toString n

/-- Model of `f"{q:,.2f}"`. -/
def fmt2 (q : ℚ) : String :=
  let s := roundHalfEven (q * 100)
  let sign := if s < 0 then "-" else ""
  let a := s.natAbs
  sign ++ natCommas (a / 100) ++ "." ++ pad2 (a % 100)

/-! ## Dates

A calendar date `m/d/y` is encoded as the natural number `y*10000 + m*100 + d`,
so numeric order is chronological order.  `datetime.strptime(s, '%m/%d/%Y')`
is modelled by `parseDateKey`; `datetime.max.date()` (the sort sentinel) is
`maxDateKey`; the consolidator's `12/31/2999` sentinel is `farFutureKey`. -/

/-- Split a char list on `/` (model of the `%m/%d/%Y` format structure). -/
def splitSlash : List Char → List (List Char)
  | [] => [[]]
  | c :: rest =>
    if c = '/' then [] :: splitSlash rest
    else
      match splitSlash rest with
      | [] => [[c]]
      | g :: gs => (c :: g) :: gs

/-- All characters are decimal digits (and the field is nonempty). -/
def allDigits (cs : List Char) : Bool :=
  !cs.isEmpty && cs.all Char.isDigit

/-- Decimal value of a digit list. -/
def digitsVal (cs : List Char) : Nat :=
  cs.foldl (fun a c => a * 10 + (c.toNat - 48)) 0

def isLeapYear (y : Nat) : Bool :=
  y % 4 == 0 && (y % 100 != 0 || y % 400 == 0)

def daysInMonth (y m : Nat) : Nat :=
  if m == 2 then (if isLeapYear y then 29 else 28)
  else if m == 4 || m == 6 || m == 9 || m == 11 then 30
  else 31

/-- Model of `datetime.strptime(s, '%m/%d/%Y').date()`: month of 1–2 digits in
1..12, day of 1–2 digits valid for the month, year of exactly 4 digits ≥ 1;
`none` models the `ValueError` branch. -/
def parseDateKey (s : String) : Option Nat :=
  match splitSlash s.data with
  | [ms, ds, ys] =>
    if allDigits ms && ms.length ≤ 2 && allDigits ds && ds.length ≤ 2
        && allDigits ys && ys.length == 4 then
      let m := digitsVal ms
      let d := digitsVal ds
      let y := digitsVal ys
      if 1 ≤ m && m ≤ 12 && 1 ≤ d && d ≤ daysInMonth y m && 1 ≤ y then
        some (y * 10000 + m * 100 + d)
      else none
    else none
  | _ => none

/-- `datetime.max.date()` = December 31, 9999: the sorter's sentinel. -/
def maxDateKey : Nat := 99991231

/-- `datetime.strptime('12/31/2999', '%m/%d/%Y').date()`: the consolidator's
far-future sentinel. -/
def farFutureKey : Nat := 29991231

/-- Model of `date.strftime('%m/%d/%Y')` on an encoded date key. -/
def fmtDateKey (k : Nat) : String :=
  pad2 ((k / 100) % 100) ++ "/" ++ pad2 (k % 100) ++ "/" ++ toString (k / 10000)

/-! ## Data model (§3 of the spec, records of `calculate_mrp_suggestions`) -/

/-- One open sales-order demand line (`get_open_order_schedule` row); only the
fields the core reads are modelled. `ordQty` is `'Ord Qty - Cur. Level'`. -/
structure SalesOrder where
  so : Nat
  part : String
  customer : String
  dueToShip : Option String
  ordQty : ℚ
deriving DecidableEq, Repr

/-- One BOM line (`get_bom_data` row). -/
structure BomLine where
  parentPart : String
  partNumber : String
  quantity : ℚ
  scrapPct : ℚ
  description : String
deriving DecidableEq, Repr

/-- One finished-good inventory row (`get_on_hand_inventory`). -/
structure FgRow where
  partNumber : String
  approved : ℚ
  pendingQc : ℚ
  total : ℚ
deriving DecidableEq, Repr

/-- Processed finished-good inventory entry (`fg_inventory_map` value). -/
structure FgInv where
  approved : ℚ
  pendingQc : ℚ
  total : ℚ
deriving DecidableEq, Repr

/-- One raw-material inventory row (`get_raw_material_inventory`). -/
structure CompRow where
  partNumber : String
  approved : ℚ
  pendingQc : ℚ
  quarantine : ℚ
  issuedToJob : ℚ
  staged : ℚ
deriving DecidableEq, Repr

/-- Processed component-inventory entry (`get_component_inventory` value). -/
structure CompInv where
  approved : ℚ
  pendingQc : ℚ
  quarantine : ℚ
  issuedToJob : ℚ
  staged : ℚ
deriving DecidableEq, Repr

/-- One open purchase-order row (`get_purchase_order_data`). -/
structure PoLine where
  part : String
  openQty : ℚ
deriving DecidableEq, Repr

/-- One open production job row (`get_open_production_jobs`). -/
structure JobRow where
  soNumber : Nat
  joJobnum : Nat
  jobQuantity : ℚ
  completedQuantity : ℚ
deriving DecidableEq, Repr

/-- Grouped job entry as stored in `jobs_by_so`. -/
structure JobEntry where
  joJobnum : Nat
  jobQuantity : ℚ
  completedQuantity : ℚ
deriving DecidableEq, Repr

/-- One capacity row (`capacity_db.get_all()`). -/
structure CapRow where
  lineId : Nat
  capacityPerShift : ℚ
deriving DecidableEq, Repr

/-- The frozen input snapshot fetched in step 1 of the engine. -/
structure Snapshot where
  salesOrders : List SalesOrder
  boms : List BomLine
  purchaseOrders : List PoLine
  componentInventoryRows : List CompRow
  fgInventoryRows : List FgRow
  capacityRows : List CapRow
  openJobs : List JobRow
deriving DecidableEq, Repr

/-- Cross-order allocation ledger entry (`allocation_log[part]` element). -/
structure AllocEntry where
  so : Nat
  allocated : ℚ
deriving DecidableEq, Repr

/-- Per-(order, component) detail record (`component_details` element). -/
structure ComponentDetail where
  partNumber : String
  description : String
  sharedWithSo : List String
  totalRequired : ℚ
  onHandInitial : ℚ
  inventoryBeforeThisSo : ℚ
  allocatedForThisSo : ℚ
  openPoQty : ℚ
  shortfall : ℚ
deriving DecidableEq, Repr

/-- One emitted result per demand line.  `netQty`, `onHandApproved` and
`onHandPendingQc` model the `'Net Qty'` / `'On Hand Qty …'` annotations the
engine writes into the sales-order dict; list/option fields that some branches
leave absent from the Python dict are modelled as `[]` / `none` there. -/
structure OrderResult where
  so : SalesOrder
  netQty : ℚ
  onHandApproved : ℚ
  onHandPendingQc : ℚ
  components : List ComponentDetail
  bottleneck : String
  bottleneckParts : List String
  canProduceQty : ℚ
  shiftsRequired : ℚ
  status : String
  materialStatus : String
  jobDetails : Option (List JobEntry)
  shippableQty : ℚ
  producibleQty : ℚ
deriving DecidableEq, Repr

/-- The three live pools plus the allocation ledger: the mutable state of one
engine run. -/
structure PoolState where
  fgA : List (String × ℚ)
  fgQc : List (String × ℚ)
  comp : List (String × ℚ)
  allocLog : List (String × List AllocEntry)
deriving DecidableEq, Repr

/-- Read-only lookup context built in steps 1–2 of the engine. -/
structure Ctx where
  fgMap : List (String × FgInv)
  boms : List BomLine
  compInv : List (String × CompInv)
  purchaseOrders : List PoLine
  openJobs : List JobRow
  capacityRows : List CapRow
deriving DecidableEq, Repr

/-! ## Snapshot aggregation (engine steps 1–3 and 5) -/

/-- `fg_inventory_map`: finished-good rows keyed by stripped part number
(dict comprehension, so duplicate keys overwrite in place). -/
def mkFgMap (rows : List FgRow) : List (String × FgInv) :=
  rows.foldl (fun m r => dinsert m (pyStrip r.partNumber) ⟨r.approved, r.pendingQc, r.total⟩) []

/-- `get_component_inventory()`: raw-material rows keyed by the *unstripped*
part number. -/
def mkCompInv (rows : List CompRow) : List (String × CompInv) :=
  rows.foldl
    (fun m r => dinsert m r.partNumber ⟨r.approved, r.pendingQc, r.quarantine, r.issuedToJob, r.staged⟩) []

/-- `boms_by_parent.get(part, [])`: the BOM lines whose stripped parent equals
`p`, in input order. -/
def bomsFor (boms : List BomLine) (p : String) : List BomLine :=
  boms.filter (fun b => pyStrip b.parentPart == p)

/-- `pos_by_part.get(part, 0)`: the sum of strictly-positive open PO
quantities for stripped part `p`. -/
def openPoQty (pos : List PoLine) (p : String) : ℚ :=
  ((pos.filter (fun po => pyStrip po.part == p && decide (0 < po.openQty))).map (fun po => po.openQty)).sum

/-- `jobs_by_so.get(str(so), [])`: open jobs grouped by SO number, in input
order (membership in `jobs_by_so` is equivalent to this list being nonempty). -/
def jobsForSo (jobs : List JobRow) (soNum : Nat) : List JobEntry :=
  (jobs.filter (fun j => j.soNumber == soNum)).map
    (fun j => ⟨j.joJobnum, j.jobQuantity, j.completedQuantity⟩)

/-- Build the read-only context from the snapshot. -/
def mkCtx (snap : Snapshot) : Ctx :=
  { fgMap := mkFgMap snap.fgInventoryRows
  , boms := snap.boms
  , compInv := mkCompInv snap.componentInventoryRows
  , purchaseOrders := snap.purchaseOrders
  , openJobs := snap.openJobs
  , capacityRows := snap.capacityRows }

/-- Step 3/5 of the engine: seed the three live pools by value from the
snapshots (`live_fg_approved`, `live_fg_qc`, `live_component_inventory`) and
start with an empty allocation ledger. -/
def initPools (snap : Snapshot) : PoolState :=
  { fgA := (mkFgMap snap.fgInventoryRows).foldl (fun m kv => dinsert m (pyStrip kv.1) kv.2.approved) []
  , fgQc := (mkFgMap snap.fgInventoryRows).foldl (fun m kv => dinsert m (pyStrip kv.1) kv.2.pendingQc) []
  , comp := (mkCompInv snap.componentInventoryRows).foldl (fun m kv => dinsert m (pyStrip kv.1) kv.2.approved) []
  , allocLog := [] }

/-! ## Priority sorter (engine step 4, `get_sort_date`) -/

/-- `get_sort_date`: parse `'Due to Ship'`; a missing, empty or unparsable
date yields the far-future sentinel `datetime.max.date()`. -/
def getSortDate (so : SalesOrder) : Nat :=
  match so.dueToShip with
  | none => maxDateKey
  | some s =>
    if s = "" then maxDateKey
    else
      match parseDateKey s with
      | some k => k
      | none => maxDateKey

/-- `sales_orders.sort(key=get_sort_date)`: stable ascending sort by due
date. -/
def prioritySort (sos : List SalesOrder) : List SalesOrder :=
  sortWith (fun a b => Nat.ble (getSortDate a) (getSortDate b)) sos

/-! ## Allocation engine (step 6, `calculate_mrp_suggestions` loop body) -/

/-- Scrap-adjusted quantity per unit:
`component['Quantity'] * (1 + component.get('Scrap %', 0) / 100)`. -/
def scrapQpu (c : BomLine) : ℚ :=
  c.quantity * (1 + c.scrapPct / 100)

/-- First pass over the BOM (lines 186–198 of the source): for each BOM line
with positive scrap-adjusted quantity, the pair
`(component part, max_build = (live + static pending-QC) / qty_per_unit)`.
Reads the live component pool, never mutates it. -/
def buildCalcs (compInv : List (String × CompInv)) (live : List (String × ℚ))
    (bl : List BomLine) : List (String × ℚ) :=
  bl.filterMap (fun c =>
    if scrapQpu c ≤ 0 then none
    else
      let cp := pyStrip c.partNumber
      some (cp, (dgetD live cp 0 + (dgetD compInv cp ⟨0, 0, 0, 0, 0⟩).pendingQc) / scrapQpu c))

/-- Running minimum of a list (the `final_can_produce_qty = min(...)` fold
starting from `float('inf')`, with `none` playing the role of `inf`). -/
def minList : List ℚ → Option ℚ
  | [] => none
  | a :: as =>
    match minList as with
    | none => some a
    | some m => some (min a m)

/-- Context for the second BOM pass. -/
structure CompCtx where
  compInv : List (String × CompInv)
  purchaseOrders : List PoLine
  soNum : Nat
  ordQty : ℚ
  net : ℚ
  finalCanProduce : ℚ
deriving DecidableEq, Repr

/-- Output of the second BOM pass. -/
structure CompOut where
  comp : List (String × ℚ)
  log : List (String × List AllocEntry)
  details : List ComponentDetail
deriving DecidableEq, Repr

/-- Second pass over the BOM (lines 218–259 of the source): deplete the live
component pool by `min(live, producible * qty_per_unit)`, append positive
allocations to the ledger, and build one `ComponentDetail` per considered
line (lines with non-positive scrap-adjusted quantity are skipped). -/
def processComponents (cctx : CompCtx) (comp : List (String × ℚ))
    (log : List (String × List AllocEntry)) : List BomLine → CompOut
  | [] => ⟨comp, log, []⟩
  | c :: rest =>
    if scrapQpu c ≤ 0 then processComponents cctx comp log rest
    else
      let qpu := scrapQpu c
      let cp := pyStrip c.partNumber
      let initInv := dgetD cctx.compInv cp ⟨0, 0, 0, 0, 0⟩
      let before := dgetD comp cp 0
      let openPo := openPoQty cctx.purchaseOrders cp
      let required := cctx.finalCanProduce * qpu
      let allocated := min before required
      let comp' := dmodify comp cp (fun v => v - allocated)
      let log1 := if dmem log cp then log else log ++ [(cp, [])]
      let log2 := if 0 < allocated then dmodify log1 cp (fun l => l ++ [⟨cctx.soNum, allocated⟩]) else log1
      let others := (dgetD log2 cp []).filter (fun a => !(a.so == cctx.soNum))
      let othersTotal := (others.map (fun a => a.allocated)).sum
      let shared : List String :=
        if 0 < othersTotal then
          ("Total Allocated to Prior SOs: " ++ fmt2 othersTotal) ::
            others.map (fun a => "  - SO " ++ toString a.so ++ ": " ++ fmt2 a.allocated)
        else []
      let shortfall := max 0 (cctx.net * qpu - (before + initInv.pendingQc + openPo))
      let detail : ComponentDetail :=
        { partNumber := cp
        , description := c.description
        , sharedWithSo := shared
        , totalRequired := cctx.ordQty * qpu
        , onHandInitial := initInv.approved
        , inventoryBeforeThisSo := before
        , allocatedForThisSo := allocated
        , openPoQty := openPo
        , shortfall := shortfall }
      let out := processComponents cctx comp' log2 rest
      ⟨out.comp, out.log, detail :: out.details⟩

/-- `f"Job: {n} ({completed:,.0f}/{required:,.0f})"` for a single job,
`f"Jobs: {comma list}"` otherwise (lines 130–135). -/
def jobHeader (jobs : List JobEntry) : String :=
  match jobs with
  | [j] => "Job: " ++ toString j.joJobnum ++ " (" ++ fmt0 j.completedQuantity ++ "/" ++ fmt0 j.jobQuantity ++ ")"
  | _ => "Jobs: " ++ String.intercalate ", " (jobs.map (fun j => toString j.joJobnum))

/-- Job overlay bottleneck text (line 269): the job header, with the step-3
bottleneck component names appended when any exist. -/
def jobOverlayText (jobs : List JobEntry) (parts : List String) : String :=
  if parts.isEmpty then jobHeader jobs
  else jobHeader jobs ++ " - " ++ String.intercalate ", " parts

/-- Shift estimate (lines 290–293): first capacity value in the capacities
dict when the dict is nonempty and that value is positive, else 0. -/
def shiftsFor (caps : List CapRow) (net : ℚ) : ℚ :=
  let capDict := caps.foldl (fun m c => dinsert m (toString c.lineId) c.capacityPerShift) []
  match capDict with
  | [] => 0
  | (_, lc) :: _ => if 0 < lc then net / lc else 0

/-- Terminal "ready-to-ship" result (lines 149–156). -/
def readyResult (so : SalesOrder) (fgStatic : FgInv) (fulfilled : ℚ) : OrderResult :=
  { so := so
  , netQty := 0
  , onHandApproved := fgStatic.approved
  , onHandPendingQc := fgStatic.pendingQc
  , components := []
  , bottleneck := "None"
  , bottleneckParts := []
  , canProduceQty := so.ordQty
  , shiftsRequired := 0
  , status := "ready-to-ship"
  , materialStatus := "ready-to-ship"
  , jobDetails := none
  , shippableQty := fulfilled
  , producibleQty := 0 }

/-- Terminal "pending-qc" result (lines 158–172). -/
def pendingQcResult (so : SalesOrder) (fgStatic : FgInv) (fulfilled needed : ℚ) : OrderResult :=
  { so := so
  , netQty := needed
  , onHandApproved := fgStatic.approved
  , onHandPendingQc := fgStatic.pendingQc
  , components := []
  , bottleneck := "Pending QC Hold: " ++ fmt0 fgStatic.pendingQc
  , bottleneckParts := []
  , canProduceQty := fulfilled
  , shiftsRequired := 0
  , status := "pending-qc"
  , materialStatus := "pending-qc"
  , jobDetails := none
  , shippableQty := fulfilled
  , producibleQty := 0 }

/-- Production-planning tail of the loop body (lines 174–295): BOM passes,
status and bottleneck-text computation, job overlay, shift estimate. -/
def prodBranch (ctx : Ctx) (st : PoolState) (so : SalesOrder) (fgStatic : FgInv)
    (jobs : List JobEntry) (fulfilled needed : ℚ) : PoolState × OrderResult :=
  let part := pyStrip so.part
  let net := needed
  let bomComps := bomsFor ctx.boms part
  let calcs := buildCalcs ctx.compInv st.comp bomComps
  let fcp : ℚ :=
    if bomComps.isEmpty then 0
    else
      match minList (calcs.map (fun c => c.2)) with
      | none => net
      | some m => min m net
  let parts := (calcs.filter (fun c => c.2 < net)).map (fun c => c.1)
  let status0 : String :=
    if bomComps.isEmpty then "critical"
    else if net ≤ fcp then "ok"
    else if 0 < fcp then "partial" else "critical"
  let prodStatus := if 0 < fulfilled then "partial-ship" else status0
  let cOut := processComponents ⟨ctx.compInv, ctx.purchaseOrders, so.so, so.ordQty, net, fcp⟩
      st.comp st.allocLog bomComps
  let b0 : String :=
    if bomComps.isEmpty then "No BOM Found"
    else if net ≤ fcp then "Full Production Ready - Create job now"
    else "Material Shortage"
  let b1 : String :=
    if bomComps.isEmpty then b0
    else if prodStatus = "partial" then
      "Partial Production Ready - Producible: " ++ fmt0 fcp ++ " - " ++ String.intercalate ", " parts
    else if prodStatus = "critical" then
      "Critical Shortage - " ++ String.intercalate ", " parts
    else b0
  let b2 := if jobs.isEmpty then b1 else jobOverlayText jobs parts
  let b3 :=
    if prodStatus = "partial-ship" then
      "Partial Ship: " ++ fmt0 fulfilled ++ " / Prod. Needed: " ++ fmt0 net ++ " / Producible: " ++ fmt0 fcp
    else b2
  let finalStatus := if jobs.isEmpty then prodStatus else "job-created"
  ( { fgA := st.fgA, fgQc := st.fgQc, comp := cOut.comp, allocLog := cOut.log }
  , { so := so
    , netQty := needed
    , onHandApproved := fgStatic.approved
    , onHandPendingQc := fgStatic.pendingQc
    , components := cOut.details
    , bottleneck := b3
    , bottleneckParts := parts
    , canProduceQty := fulfilled + fcp
    , shiftsRequired := shiftsFor ctx.capacityRows net
    , status := finalStatus
    , materialStatus := prodStatus
    , jobDetails := if jobs.isEmpty then none else some jobs
    , shippableQty := fulfilled
    , producibleQty := fcp } )

/-- One iteration of the engine loop (lines 113–295): ship from approved
stock, then the pending-QC check, then production planning. -/
def processSO (ctx : Ctx) (st : PoolState) (so : SalesOrder) : PoolState × OrderResult :=
  let part := pyStrip so.part
  let fgStatic := dgetD ctx.fgMap part ⟨0, 0, 0⟩
  let jobs := jobsForSo ctx.openJobs so.so
  let availA := dgetD st.fgA part 0
  let fulfilled := min so.ordQty availA
  let st1 : PoolState := { st with fgA := dmodify st.fgA part (fun v => v - fulfilled) }
  let needed := so.ordQty - fulfilled
  if needed ≤ 0 then
    (st1, readyResult so fgStatic fulfilled)
  else if needed ≤ dgetD st.fgQc part 0 then
    ({ st1 with fgQc := dmodify st.fgQc part (fun v => v - needed) },
      pendingQcResult so fgStatic fulfilled needed)
  else
    prodBranch ctx st1 so fgStatic jobs fulfilled needed

/-- Sequential fold of the engine over the sorted demand lines, collecting
one result per line (the `mrp_results` list). -/
def runLines (ctx : Ctx) (st : PoolState) : List SalesOrder → List OrderResult
  | [] => []
  | so :: rest => (processSO ctx st so).2 :: runLines ctx (processSO ctx st so).1 rest

/-- The pool states traversed by the run (initial state first). -/
def runStates (ctx : Ctx) (st : PoolState) : List SalesOrder → List PoolState
  | [] => [st]
  | so :: rest => st :: runStates ctx (processSO ctx st so).1 rest

/-- The pool state after the whole run. -/
def finalPoolState (ctx : Ctx) (st : PoolState) : List SalesOrder → PoolState
  | [] => st
  | so :: rest => finalPoolState ctx (processSO ctx st so).1 rest

/-- `calculate_mrp_suggestions`: aggregate the snapshot, sort demand by due
date, fold the allocation engine over it, and publish the results re-sorted
by SO id ascending (line 297). -/
def calculateMrpSuggestions (snap : Snapshot) : List OrderResult :=
  let ctx := mkCtx snap
  sortWith (fun r s => Nat.ble r.so.so s.so.so)
    (runLines ctx (initPools snap) (prioritySort snap.salesOrders))

/-! ## Shortage consolidator (`get_consolidated_shortages`) -/

/-- One affected order recorded under a shortage. -/
structure AffectedOrder where
  so : Nat
  customer : String
  dueDate : Option String
deriving DecidableEq, Repr

/-- In-progress consolidation record (`shortages[part]` dict before the final
formatting pass); the customer set is modelled as an insertion-ordered
duplicate-free list, which the final `sorted(list(...))` renders identically
to Python's set. -/
structure RawShort where
  partNumber : String
  description : String
  onHand : ℚ
  openPoQty : ℚ
  totalShortfall : ℚ
  affectedOrders : List AffectedOrder
  affectedCustomers : List String
  earliestDueKey : Nat
deriving DecidableEq, Repr

/-- Rendered consolidation record (after the formatting pass). -/
structure ShortEntry where
  partNumber : String
  description : String
  onHand : ℚ
  openPoQty : ℚ
  totalShortfall : ℚ
  affectedOrders : List AffectedOrder
  affectedCustomers : List String
  earliestDueDate : Option String
deriving DecidableEq, Repr

/-- Set insertion (`s.add(x)`): append if not already present. -/
def setInsert (l : List String) (s : String) : List String :=
  if l.contains s then l else l ++ [s]

/-- The due-date key the consolidator derives from one order's
`'Due to Ship'` value (`None`/empty/unparsable all yield no key). -/
def dueKeyOf (dueStr : Option String) : Option Nat :=
  match dueStr with
  | none => none
  | some s => if s = "" then none else parseDateKey s

/-- The in-place update the consolidator applies to an existing shortage
record for one further `ComponentDetail` (lines 380–400): accumulate the
shortfall, record the affected order and customer, lower the earliest due
date when this order's date parses earlier. -/
def updateRawShort (soNum : Nat) (customer : String) (dueStr : Option String)
    (c : ComponentDetail) (r : RawShort) : RawShort :=
  let r1 : RawShort :=
    { r with
      totalShortfall := r.totalShortfall + c.shortfall
    , affectedOrders := r.affectedOrders ++ [⟨soNum, customer, dueStr⟩]
    , affectedCustomers :=
        if customer == "N/A" then r.affectedCustomers
        else setInsert r.affectedCustomers customer }
  match dueKeyOf dueStr with
  | some k => if k < r1.earliestDueKey then { r1 with earliestDueKey := k } else r1
  | none => r1

/-- Handle one `ComponentDetail` of one result (lines 360–400): skip unless
`shortfall > 0`; skip parts starting with `'W'`; otherwise create the entry
if needed and apply `updateRawShort`. -/
def addShortage (soNum : Nat) (customer : String) (dueStr : Option String)
    (m : List (String × RawShort)) (c : ComponentDetail) : List (String × RawShort) :=
  if 0 < c.shortfall then
    if startsWithW c.partNumber then m
    else
      let m1 :=
        if dmem m c.partNumber then m
        else m ++ [(c.partNumber,
          ⟨c.partNumber, c.description, c.onHandInitial, c.openPoQty, 0, [], [], farFutureKey⟩)]
      dmodify m1 c.partNumber (updateRawShort soNum customer dueStr c)
  else m

/-- Handle one `OrderResult` (lines 354–400): record the customer, then fold
`addShortage` over its component details. -/
def consolidateStep (acc : List (String × RawShort) × List String) (r : OrderResult) :
    List (String × RawShort) × List String :=
  let customer := r.so.customer
  let custs := if customer == "N/A" then acc.2 else setInsert acc.2 customer
  (r.components.foldl (addShortage r.so.so customer r.so.dueToShip) acc.1, custs)

/-- Final formatting pass (lines 406–411): sort the customer set and render
the sentinel earliest due date as absent, other dates as `%m/%d/%Y`. -/
def renderShort (r : RawShort) : ShortEntry :=
  { partNumber := r.partNumber
  , description := r.description
  , onHand := r.onHand
  , openPoQty := r.openPoQty
  , totalShortfall := r.totalShortfall
  , affectedOrders := r.affectedOrders
  , affectedCustomers := sortWith strLe r.affectedCustomers
  , earliestDueDate :=
      if r.earliestDueKey = farFutureKey then none else some (fmtDateKey r.earliestDueKey) }

/-- Consolidate a result list: the shortage list sorted ascending by part
number, and the overall customer list sorted ascending. -/
def consolidate (results : List OrderResult) : List ShortEntry × List String :=
  let acc := results.foldl consolidateStep ([], [])
  ( (sortWith (fun a b => strLe a.partNumber b.partNumber) (acc.1.map (fun kv => kv.2))).map renderShort
  , sortWith strLe acc.2 )

/-- `get_consolidated_shortages`: run the engine, then consolidate. -/
def getConsolidatedShortages (snap : Snapshot) : List ShortEntry × List String :=
  consolidate (calculateMrpSuggestions snap)

/-! ## Definitions used by the claim statements -/

/-- The four material statuses a line that reached production planning can
carry (step 3 of the engine); `ready-to-ship` and `pending-qc` lines
terminate earlier. -/
def prodStatuses : List String := ["ok", "partial", "critical", "partial-ship"]

/-- All quantities of the snapshot that feed the live pools are nonnegative
(real inventories and ordered quantities). -/
def NonnegSnapshot (snap : Snapshot) : Prop :=
  (∀ so ∈ snap.salesOrders, 0 ≤ so.ordQty) ∧
  (∀ r ∈ snap.fgInventoryRows, 0 ≤ r.approved ∧ 0 ≤ r.pendingQc) ∧
  (∀ r ∈ snap.componentInventoryRows, 0 ≤ r.approved ∧ 0 ≤ r.pendingQc)

/-- The amounts deducted step by step along a value trace. -/
def stepDrops (l : List ℚ) : List ℚ :=
  (l.zip l.tail).map (fun ab => ab.1 - ab.2)

/-- Pool states traversed by a full engine run on a snapshot. -/
def mrpStates (snap : Snapshot) : List PoolState :=
  runStates (mkCtx snap) (initPools snap) (prioritySort snap.salesOrders)

/-- Pool state after a full engine run on a snapshot. -/
def mrpFinalState (snap : Snapshot) : PoolState :=
  finalPoolState (mkCtx snap) (initPools snap) (prioritySort snap.salesOrders)

/-- Value trace of part `p` in the live finished-good approved pool. -/
def traceFgA (snap : Snapshot) (p : String) : List ℚ :=
  (mrpStates snap).map (fun st => dgetD st.fgA p 0)

/-- Value trace of part `p` in the live finished-good pending-QC pool. -/
def traceFgQc (snap : Snapshot) (p : String) : List ℚ :=
  (mrpStates snap).map (fun st => dgetD st.fgQc p 0)

/-- Value trace of part `p` in the live component approved pool. -/
def traceComp (snap : Snapshot) (p : String) : List ℚ :=
  (mrpStates snap).map (fun st => dgetD st.comp p 0)

/-- Total quantity the ledger records as allocated from part `p`'s live
component pool over a run. -/
def allocSumFor (log : List (String × List AllocEntry)) (p : String) : ℚ :=
  ((dgetD log p []).map (fun a => a.allocated)).sum

/-- Sum of part `p`'s `shortfall` fields over all component details of all
results. -/
def fullShortfallSum (rs : List OrderResult) (p : String) : ℚ :=
  (rs.map (fun r => ((r.components.filter (fun c => c.partNumber == p)).map (fun c => c.shortfall)).sum)).sum

/-- Sum of part `p`'s strictly positive `shortfall` fields over a detail
list (the terms the consolidator actually accumulates). -/
def compPosSum (cs : List ComponentDetail) (p : String) : ℚ :=
  ((cs.filter (fun c => c.partNumber == p && decide (0 < c.shortfall))).map (fun c => c.shortfall)).sum

/-- `compPosSum` over all results. -/
def posShortfallSum (rs : List OrderResult) (p : String) : ℚ :=
  (rs.map (fun r => compPosSum r.components p)).sum

/-- The accumulated total the consolidation map records for a part (0 when
the part has no entry). -/
def entryTotal (m : List (String × RawShort)) (p : String) : ℚ :=
  ((dget? m p).map (fun r => r.totalShortfall)).getD 0

/-- All three live pools read nonnegative at every key. -/
def PoolsNonneg (st : PoolState) : Prop :=
  (∀ p, 0 ≤ dgetD st.fgA p 0) ∧ (∀ p, 0 ≤ dgetD st.fgQc p 0) ∧ (∀ p, 0 ≤ dgetD st.comp p 0)

/-- Every static pending-QC component quantity the context can return is
nonnegative. -/
def CtxQcNonneg (ctx : Ctx) : Prop :=
  ∀ p, 0 ≤ (dgetD ctx.compInv p ⟨0, 0, 0, 0, 0⟩).pendingQc

/-! ## Concrete snapshots used by witnesses and counterexamples -/

/-- C1: one line partially shippable from stock, components ample, so the
production side alone would be "ok". -/
def snapC1 : Snapshot :=
  { salesOrders := [⟨11, "FGA", "CustA", some "01/05/2024", 10⟩]
  , boms := [⟨"FGA", "CA", 1, 0, "c-a"⟩]
  , purchaseOrders := []
  , componentInventoryRows := [⟨"CA", 100, 0, 0, 0, 0⟩]
  , fgInventoryRows := [⟨"FGA", 4, 0, 4⟩]
  , capacityRows := []
  , openJobs := [] }

/-- C2: SO 21 has an open job and is fully shippable from approved stock;
SO 22 has an open job, partial stock and reaches production planning. -/
def snapC2 : Snapshot :=
  { salesOrders := [⟨21, "FGB", "CustB", some "01/05/2024", 5⟩,
                    ⟨22, "FGC", "CustB", some "01/06/2024", 10⟩]
  , boms := [⟨"FGC", "CB", 1, 0, "c-b"⟩]
  , purchaseOrders := []
  , componentInventoryRows := [⟨"CB", 100, 0, 0, 0, 0⟩]
  , fgInventoryRows := [⟨"FGB", 9, 0, 9⟩, ⟨"FGC", 2, 0, 2⟩]
  , capacityRows := []
  , openJobs := [⟨21, 7100, 5, 1⟩, ⟨22, 7200, 8, 0⟩] }

/-- C2 witness snapshot: a single line that reaches production planning with
no stock shipped and one open job. -/
def snapC2b : Snapshot :=
  { salesOrders := [⟨23, "FGL", "CustB", some "01/07/2024", 10⟩]
  , boms := [⟨"FGL", "CB", 1, 0, "c-b"⟩]
  , purchaseOrders := []
  , componentInventoryRows := [⟨"CB", 100, 0, 0, 0, 0⟩]
  , fgInventoryRows := []
  , capacityRows := []
  , openJobs := [⟨23, 7300, 10, 0⟩] }

/-- The single result `calculate_mrp_suggestions` emits on `snapC2b`,
spelled out. -/
def resC2 : OrderResult :=
  { so := ⟨23, "FGL", "CustB", some "01/07/2024", 10⟩
  , netQty := 10
  , onHandApproved := 0
  , onHandPendingQc := 0
  , components := [⟨"CB", "c-b", [], 10, 100, 100, 10, 0, 0⟩]
  , bottleneck := "Job: 7300 (0/10)"
  , bottleneckParts := []
  , canProduceQty := 10
  , shiftsRequired := 0
  , status := "job-created"
  , materialStatus := "ok"
  , jobDetails := some [⟨7300, 10, 0⟩]
  , shippableQty := 0
  , producibleQty := 10 }

/-- C3/C9: a generic two-line snapshot exercising all allocation branches. -/
def snapC3 : Snapshot :=
  { salesOrders := [⟨32, "FGD", "CustD", some "02/06/2024", 10⟩,
                    ⟨31, "FGD", "CustC", some "01/05/2024", 10⟩]
  , boms := [⟨"FGD", "CC", 2, 10, "c-c"⟩]
  , purchaseOrders := [⟨"CC", 7⟩]
  , componentInventoryRows := [⟨"CC", 30, 0, 0, 0, 0⟩]
  , fgInventoryRows := [⟨"FGD", 5, 2, 7⟩]
  , capacityRows := [⟨1, 20⟩]
  , openJobs := [] }

/-- C4/C5: two lines competing for one scarce component. -/
def snapC4 : Snapshot :=
  { salesOrders := [⟨41, "FGE", "CustE", some "01/05/2024", 6⟩,
                    ⟨42, "FGE", "CustF", some "01/06/2024", 6⟩]
  , boms := [⟨"FGE", "CD", 1, 0, "c-d"⟩]
  , purchaseOrders := []
  , componentInventoryRows := [⟨"CD", 8, 3, 0, 0, 0⟩]
  , fgInventoryRows := [⟨"FGE", 1, 1, 2⟩]
  , capacityRows := []
  , openJobs := [] }

/-- C6: an unparsable due date followed by the extreme parsable date
`12/31/9999`, which collides with the sorter's sentinel. -/
def soC6a : SalesOrder := ⟨61, "FGF", "CustG", some "garbage", 1⟩

/-- C6: a demand line dated December 31, 9999. -/
def soC6b : SalesOrder := ⟨62, "FGF", "CustG", some "12/31/9999", 1⟩

/-- C6: an ordinarily dated demand line. -/
def soC6c : SalesOrder := ⟨63, "FGF", "CustG", some "03/15/2024", 1⟩

/-- C7: a line with no BOM, no job, and partial approved stock (counterexample
side), plus a line with no BOM and no stock (witness side). -/
def snapC7 : Snapshot :=
  { salesOrders := [⟨71, "FGG", "CustH", some "01/05/2024", 10⟩,
                    ⟨72, "FGH", "CustH", some "01/06/2024", 4⟩]
  , boms := []
  , purchaseOrders := []
  , componentInventoryRows := []
  , fgInventoryRows := [⟨"FGG", 3, 0, 3⟩]
  , capacityRows := []
  , openJobs := [] }

/-- C8: one real component shortage plus one reserved-prefix (`W…`) shortage. -/
def snapC8 : Snapshot :=
  { salesOrders := [⟨81, "FGI", "CustI", some "03/01/2024", 40⟩,
                    ⟨82, "FGI", "N/A", none, 5⟩]
  , boms := [⟨"FGI", "CE", 2, 10, "c-e"⟩, ⟨"FGI", "W9", 1, 0, "w-part"⟩]
  , purchaseOrders := []
  , componentInventoryRows := [⟨"CE", 50, 0, 0, 0, 0⟩, ⟨"W9", 10, 0, 0, 0, 0⟩]
  , fgInventoryRows := []
  , capacityRows := [⟨1, 20⟩]
  , openJobs := [] }

/-- The single shortage entry `get_consolidated_shortages` emits on
`snapC8`, spelled out. -/
def entC8 : ShortEntry :=
  ⟨"CE", "c-e", 50, 0, 38, [⟨81, "CustI", some "03/01/2024"⟩], ["CustI"], some "03/01/2024"⟩

/-- C10: a part whose only BOM line has zero quantity (skipped), with partial
approved stock for the counterexample line and none for the witness line. -/
def snapC10 : Snapshot :=
  { salesOrders := [⟨91, "FGJ", "CustJ", some "01/05/2024", 10⟩,
                    ⟨92, "FGK", "CustJ", some "01/06/2024", 4⟩]
  , boms := [⟨"FGJ", "CF", 0, 0, "c-f"⟩, ⟨"FGK", "CF", 0, 50, "c-f"⟩]
  , purchaseOrders := []
  , componentInventoryRows := [⟨"CF", 5, 0, 0, 0, 0⟩]
  , fgInventoryRows := [⟨"FGJ", 3, 0, 3⟩]
  , capacityRows := []
  , openJobs := [] }

/-! ## Infrastructure lemmas: association lists -/

theorem dget?_dinsert {β : Type} (m : List (String × β)) (k k' : String) (v : β) :
    dget? (dinsert m k v) k' = if k = k' then some v else dget? m k' := by
  induction m with
  | nil => simp [dinsert, dget?]
  | cons a rest ih =>
    obtain ⟨ka, va⟩ := a
    by_cases hak : ka = k
    · subst hak
      by_cases hkk : ka = k'
      · subst hkk; simp [dinsert, dget?]
      · simp [dinsert, dget?, hkk]
    · by_cases hkk : ka = k'
      · subst hkk
        have : ¬ k = ka := fun h => hak h.symm
        simp [dinsert, dget?, hak, this]
      · simp [dinsert, dget?, hak, hkk, ih]

theorem dget?_dmodify {β : Type} (m : List (String × β)) (k k' : String) (f : β → β) :
    dget? (dmodify m k f) k' = if k = k' then (dget? m k).map f else dget? m k' := by
  induction m with
  | nil => simp [dmodify, dget?]
  | cons a rest ih =>
    obtain ⟨ka, va⟩ := a
    by_cases hak : ka = k
    · subst hak
      by_cases hkk : ka = k'
      · subst hkk; simp [dmodify, dget?]
      · simp [dmodify, dget?, hkk]
    · by_cases hkk : ka = k'
      · subst hkk
        have : ¬ k = ka := fun h => hak h.symm
        simp [dmodify, dget?, hak, this]
      · simp [dmodify, dget?, hak, hkk, ih]

theorem dgetD_dinsert {β : Type} (m : List (String × β)) (k k' : String) (v dflt : β) :
    dgetD (dinsert m k v) k' dflt = if k = k' then v else dgetD m k' dflt := by
  simp only [dgetD, dget?_dinsert]
  split <;> rfl

theorem dgetD_dmodify {β : Type} (m : List (String × β)) (k k' : String) (f : β → β) (dflt : β) :
    dgetD (dmodify m k f) k' dflt =
      if k = k' then ((dget? m k).map f).getD dflt else dgetD m k' dflt := by
  simp only [dgetD, dget?_dmodify]
  split <;> rfl

/-- Reading a fold of `dinsert`s: every readable value is either a default or
one of the inserted values, so any predicate holding of those holds of every
read. -/
theorem dgetD_foldl_dinsert {γ β : Type} (key : γ → String) (val : γ → β)
    (P : β → Prop) (dflt : β) (rows : List γ) (m : List (String × β))
    (hm : ∀ k, P (dgetD m k dflt)) (hrows : ∀ r ∈ rows, P (val r)) :
    ∀ k, P (dgetD (rows.foldl (fun acc r => dinsert acc (key r) (val r)) m) k dflt) := by
  induction rows generalizing m with
  | nil => simpa using hm
  | cons r rest ih =>
    intro k
    simp only [List.foldl_cons]
    refine ih (dinsert m (key r) (val r)) ?_ (fun x hx => hrows x (by simp [hx])) k
    intro k'
    rw [dgetD_dinsert]
    split
    · exact hrows r (by simp)
    · exact hm k'

/-! ## Infrastructure lemmas: the stable sort -/

theorem insertSorted_perm {α : Type} (le : α → α → Bool) (a : α) (l : List α) :
    (insertSorted le a l).Perm (a :: l) := by
  induction l with
  | nil => simp [insertSorted]
  | cons b bs ih =>
    simp only [insertSorted]
    split
    · exact List.Perm.refl _
    · exact (ih.cons b).trans (List.Perm.swap a b bs)

theorem sortWith_perm {α : Type} (le : α → α → Bool) (l : List α) :
    (sortWith le l).Perm l := by
  induction l with
  | nil => simp [sortWith]
  | cons a as ih =>
    exact (insertSorted_perm le a (sortWith le as)).trans (ih.cons a)

theorem mem_sortWith {α : Type} (le : α → α → Bool) (l : List α) (x : α) :
    x ∈ sortWith le l ↔ x ∈ l :=
  (sortWith_perm le l).mem_iff

theorem length_sortWith {α : Type} (le : α → α → Bool) (l : List α) :
    (sortWith le l).length = l.length :=
  (sortWith_perm le l).length_eq

theorem chain'_insertSorted {α : Type} (le : α → α → Bool)
    (htot : ∀ x y, le x y = false → le y x = true) (a : α) (l : List α)
    (hl : List.Chain' (fun x y => le x y = true) l) :
    List.Chain' (fun x y => le x y = true) (insertSorted le a l) := by
  induction l with
  | nil => simp [insertSorted]
  | cons b bs ih =>
    simp only [insertSorted]
    split
    · rename_i hab
      exact List.Chain'.cons hab hl
    · rename_i hab
      have hba : le b a = true := htot a b (by simpa using hab)
      refine List.chain'_cons'.mpr ⟨?_, ih hl.tail⟩
      intro y hy
      cases bs with
      | nil => simp [insertSorted] at hy; subst hy; exact hba
      | cons c cs =>
        simp only [insertSorted] at hy
        split at hy
        · simp at hy; subst hy; exact hba
        · simp at hy; subst hy
          exact (List.chain'_cons.mp hl).1

theorem chain'_sortWith {α : Type} (le : α → α → Bool)
    (htot : ∀ x y, le x y = false → le y x = true) (l : List α) :
    List.Chain' (fun x y => le x y = true) (sortWith le l) := by
  induction l with
  | nil => simp [sortWith]
  | cons a as ih => exact chain'_insertSorted le htot a (sortWith le as) ih

theorem pairwise_sortWith {α : Type} (le : α → α → Bool)
    (htot : ∀ x y, le x y = false → le y x = true)
    (htrans : ∀ x y z, le x y = true → le y z = true → le x z = true) (l : List α) :
    List.Pairwise (fun x y => le x y = true) (sortWith le l) := by
  haveI : IsTrans α (fun x y => le x y = true) := ⟨fun x y z hxy hyz => htrans x y z hxy hyz⟩
  exact List.chain'_iff_pairwise.mp (chain'_sortWith le htot l)

/-- Inserting `a` only ever places it before elements with a strictly
different key, so the key-`k` subsequence either gains `a` at the front (when
`key a = k`) or is untouched. -/
theorem filter_insertSorted_eqKey {α β : Type} [DecidableEq β] (key : α → β) (le : α → α → Bool)
    (hcompat : ∀ x y, key x = key y → le x y = true)
    (a : α) (l : List α) (k : β) :
    (insertSorted le a l).filter (fun x => key x == k) =
      if key a = k then a :: l.filter (fun x => key x == k)
      else l.filter (fun x => key x == k) := by
  induction l with
  | nil =>
    by_cases h : key a = k <;> simp [insertSorted, List.filter_cons, beq_iff_eq, h]
  | cons b bs ih =>
    simp only [insertSorted]
    split
    · by_cases h : key a = k <;> simp [List.filter_cons, beq_iff_eq, h]
    · rename_i hab
      by_cases h : key a = k
      · have hbk : ¬ key b = k := by
          intro hb
          exact absurd (hcompat a b (h.trans hb.symm)) (by simpa using hab)
        simp [List.filter_cons, beq_iff_eq, h, hbk, ih]
      · by_cases hbk : key b = k <;> simp [List.filter_cons, beq_iff_eq, h, hbk, ih]

/-- Stability of the sort: for every key value, the subsequence of elements
carrying that key is unchanged. -/
theorem filter_sortWith_eqKey {α β : Type} [DecidableEq β] (key : α → β) (le : α → α → Bool)
    (hcompat : ∀ x y, key x = key y → le x y = true) (l : List α) (k : β) :
    (sortWith le l).filter (fun x => key x == k) = l.filter (fun x => key x == k) := by
  induction l with
  | nil => simp [sortWith]
  | cons a as ih =>
    simp only [sortWith]
    rw [filter_insertSorted_eqKey key le hcompat]
    by_cases h : key a = k <;> simp [List.filter_cons, beq_iff_eq, h, ih]

/-! ## Infrastructure lemmas: the code-point string order -/

theorem lexLe_refl (l : List Char) : lexLe l l = true := by
  induction l with
  | nil => rfl
  | cons a as ih => simp [lexLe, ih]

theorem lexLe_total (l m : List Char) : lexLe l m = false → lexLe m l = true := by
  induction l generalizing m with
  | nil => intro h; simp [lexLe] at h
  | cons a as ih =>
    intro h
    cases m with
    | nil => simp [lexLe]
    | cons b bs =>
      simp only [lexLe] at h ⊢
      by_cases hab : a.toNat < b.toNat
      · simp [hab] at h
      · by_cases hba : b.toNat < a.toNat
        · simp [hba]
        · simp [hab, hba] at h ⊢
          exact ih bs h

theorem lexLe_trans (a b c : List Char) :
    lexLe a b = true → lexLe b c = true → lexLe a c = true := by
  induction a generalizing b c with
  | nil => intro _ _; rfl
  | cons x xs ih =>
    intro hab hbc
    cases b with
    | nil => simp [lexLe] at hab
    | cons y ys =>
      cases c with
      | nil => simp [lexLe] at hbc
      | cons z zs =>
        simp only [lexLe] at hab hbc ⊢
        rcases Nat.lt_trichotomy x.toNat y.toNat with h1 | h1 | h1
        · rcases Nat.lt_trichotomy y.toNat z.toNat with h2 | h2 | h2
          · rw [if_pos (h1.trans h2)]
          · rw [if_pos (show x.toNat < z.toNat by omega)]
          · rw [if_neg (by omega), if_pos h2] at hbc
            exact absurd hbc (by simp)
        · rw [if_neg (by omega), if_neg (by omega)] at hab
          rcases Nat.lt_trichotomy y.toNat z.toNat with h2 | h2 | h2
          · rw [if_pos (by omega)]
          · rw [if_neg (by omega), if_neg (by omega)] at hbc
            rw [if_neg (by omega), if_neg (by omega)]
            exact ih ys zs hab hbc
          · rw [if_neg (by omega), if_pos h2] at hbc
            exact absurd hbc (by simp)
        · rw [if_neg (by omega), if_pos h1] at hab
          exact absurd hab (by simp)

theorem strLe_refl (s : String) : strLe s s = true := lexLe_refl s.data

theorem strLe_total (s t : String) : strLe s t = false → strLe t s = true :=
  lexLe_total s.data t.data

theorem strLe_trans (s t u : String) :
    strLe s t = true → strLe t u = true → strLe s u = true :=
  lexLe_trans s.data t.data u.data

/-! ## Engine lemmas: generic run induction -/

/-- Fold induction over one engine run: a pool invariant preserved by each
step yields a property of every emitted result. -/
theorem runLines_forall {P : OrderResult → Prop} {I : PoolState → Prop} {Q : SalesOrder → Prop}
    (ctx : Ctx)
    (hres : ∀ st so, I st → Q so → P (processSO ctx st so).2)
    (hstep : ∀ st so, I st → Q so → I (processSO ctx st so).1) :
    ∀ (sos : List SalesOrder) (st : PoolState), I st → (∀ so ∈ sos, Q so) →
      ∀ r ∈ runLines ctx st sos, P r := by
  intro sos
  induction sos with
  | nil => intro st _ _ r hr; simp [runLines] at hr
  | cons so rest ih =>
    intro st hst hsos r hr
    simp only [runLines, List.mem_cons] at hr
    rcases hr with h | h
    · subst h; exact hres st so hst (hsos so (by simp))
    · exact ih (processSO ctx st so).1 (hstep st so hst (hsos so (by simp)))
        (fun x hx => hsos x (by simp [hx])) r h

/-- Each step emits the processed sales order unchanged in its result. -/
theorem processSO_so (ctx : Ctx) (st : PoolState) (so : SalesOrder) :
    (processSO ctx st so).2.so = so := by
  simp only [processSO]
  split_ifs
  · rfl
  · rfl
  · simp only [prodBranch]

/-- C3 per-step bound: shippable plus producible never exceeds the ordered
quantity. -/
theorem processSO_bound (ctx : Ctx) (st : PoolState) (so : SalesOrder) :
    (processSO ctx st so).2.shippableQty + (processSO ctx st so).2.producibleQty ≤ so.ordQty := by
  simp only [processSO]
  split_ifs with h1 h2
  · simp only [readyResult, add_zero]
    exact min_le_left _ _
  · simp only [pendingQcResult, add_zero]
    exact min_le_left _ _
  · simp only [prodBranch]
    set fulfilled := min so.ordQty (dgetD st.fgA (pyStrip so.part) 0) with hful
    have hle : fulfilled ≤ so.ordQty := min_le_left _ _
    have hnet : 0 < so.ordQty - fulfilled := by linarith [not_le.mp h1]
    split_ifs with hbe
    · simpa using hle
    · rcases hm : minList ((buildCalcs ctx.compInv st.comp (bomsFor ctx.boms (pyStrip so.part))).map (fun c => c.2)) with _ | m
      · simp [hm]
      · simp only [hm]
        have : min m (so.ordQty - fulfilled) ≤ so.ordQty - fulfilled := min_le_right _ _
        linarith

/-- Membership in the published result list is membership in the run's raw
result list (the final re-sort only permutes). -/
theorem mem_calculateMrpSuggestions (snap : Snapshot) (r : OrderResult) :
    r ∈ calculateMrpSuggestions snap ↔
      r ∈ runLines (mkCtx snap) (initPools snap) (prioritySort snap.salesOrders) := by
  simp only [calculateMrpSuggestions]
  exact mem_sortWith _ _ r

/-- **C3** — For every demand line processed by the allocation engine, the
emitted result satisfies `shippable_qty + producible_qty ≤ ordered quantity`. -/
theorem C3_shippable_producible_le_ordered (snap : Snapshot) (r : OrderResult)
    (hr : r ∈ calculateMrpSuggestions snap) :
    r.shippableQty + r.producibleQty ≤ r.so.ordQty := by
  have hr' := (mem_calculateMrpSuggestions snap r).mp hr
  refine runLines_forall (P := fun r => r.shippableQty + r.producibleQty ≤ r.so.ordQty)
    (I := fun _ => True) (Q := fun _ => True) (mkCtx snap) ?_ (fun _ _ _ _ => trivial)
    _ _ trivial (fun _ _ => trivial) r hr'
  intro st so _ _
  have h2 := processSO_so (mkCtx snap) st so
  rw [h2]
  exact processSO_bound (mkCtx snap) st so

/-- **C3 witness** — the bound holds at the head result of a concrete run in
which stock, pending-QC and component constraints all bind. -/
theorem C3_witness :
    ((calculateMrpSuggestions snapC3).headD (readyResult ⟨0, "", "", none, 0⟩ ⟨0, 0, 0⟩ 0)).shippableQty
      + ((calculateMrpSuggestions snapC3).headD (readyResult ⟨0, "", "", none, 0⟩ ⟨0, 0, 0⟩ 0)).producibleQty
      ≤ ((calculateMrpSuggestions snapC3).headD (readyResult ⟨0, "", "", none, 0⟩ ⟨0, 0, 0⟩ 0)).so.ordQty :=
  C3_shippable_producible_le_ordered snapC3 _ (by with_unfolding_all decide)

/-- **C9** — The full MRP calculation is a pure function of the frozen input
snapshot: two runs on identical snapshots produce identical result sets. -/
theorem C9_deterministic (s₁ s₂ : Snapshot) (h : s₁ = s₂) :
    calculateMrpSuggestions s₁ = calculateMrpSuggestions s₂ := by
  rw [h]

/-- **C9 witness** — determinism at a concrete snapshot. -/
theorem C9_witness : calculateMrpSuggestions snapC4 = calculateMrpSuggestions snapC4 :=
  C9_deterministic snapC4 snapC4 rfl

/-! ## Engine lemmas: pool depletion bounds -/

/-- `dmodify` on an absent key is the identity. -/
theorem dmodify_absent {β : Type} (m : List (String × β)) (k : String) (f : β → β)
    (h : dmem m k = false) : dmodify m k f = m := by
  induction m with
  | nil => rfl
  | cons a rest ih =>
    obtain ⟨ka, va⟩ := a
    by_cases hak : ka = k
    · subst hak; simp [dmem, dget?] at h
    · simp only [dmodify, if_neg hak]
      simp only [dmem, dget?, if_neg hak] at h
      rw [ih h]

/-- Subtracting a quantity `x` with `0 ≤ x ≤` the key's current value moves
every read of the map downward but keeps nonnegative reads nonnegative. -/
theorem dgetD_dmodify_sub_le (m : List (String × ℚ)) (k : String) (x : ℚ)
    (hx : 0 ≤ x) (hk : x ≤ dgetD m k 0) (p : String) :
    dgetD (dmodify m k (fun v => v - x)) p 0 ≤ dgetD m p 0 ∧
      (0 ≤ dgetD m p 0 → 0 ≤ dgetD (dmodify m k (fun v => v - x)) p 0) := by
  rw [dgetD_dmodify]
  by_cases hkp : k = p
  · subst hkp
    rcases h : dget? m k with _ | v
    · simp [dgetD, h]
    · have hv : dgetD m k 0 = v := by simp [dgetD, h]
      rw [hv] at hk
      simp [h, hv]
      exact ⟨by linarith, fun _ => by linarith⟩
  · simp [hkp]

/-- The running minimum of a nonempty list is one of its elements. -/
theorem minList_mem (l : List ℚ) (m : ℚ) : minList l = some m → m ∈ l := by
  induction l generalizing m with
  | nil => intro h; simp [minList] at h
  | cons a as ih =>
    intro h
    simp only [minList] at h
    rcases hm : minList as with _ | m'
    · rw [hm] at h; simp at h; simp [h]
    · rw [hm] at h
      simp only [Option.some.injEq] at h
      rcases min_choice a m' with hc | hc
    
      · rw [← h, hc]; simp
      · rw [← h, hc]
        exact List.mem_cons_of_mem a (ih m' hm)

/-- Every `max_build` computed by the first BOM pass is nonnegative when the
live pool and the static pending-QC pools are. -/
theorem buildCalcs_nonneg (compInv : List (String × CompInv)) (live : List (String × ℚ))
    (bl : List BomLine) (hlive : ∀ p, 0 ≤ dgetD live p 0)
    (hqc : ∀ p, 0 ≤ (dgetD compInv p ⟨0, 0, 0, 0, 0⟩).pendingQc) :
    ∀ x ∈ buildCalcs compInv live bl, 0 ≤ x.2 := by
  intro x hx
  simp only [buildCalcs, List.mem_filterMap] at hx
  obtain ⟨c, _, hc⟩ := hx
  split_ifs at hc with hq
  · simp only [Option.some.injEq] at hc
    have hqpu : 0 < scrapQpu c := not_le.mp hq
    rw [← hc]
    exact div_nonneg (add_nonneg (hlive _) (hqc _)) hqpu.le

/-- The second BOM pass only ever lowers the live component pool, and keeps
it nonnegative, provided the constrained producible quantity is
nonnegative. -/
theorem processComponents_comp_bounds (cctx : CompCtx) (hfcp : 0 ≤ cctx.finalCanProduce) :
    ∀ (bl : List BomLine) (comp : List (String × ℚ)) (log : List (String × List AllocEntry)),
      (∀ p, 0 ≤ dgetD comp p 0) →
      ∀ p, 0 ≤ dgetD (processComponents cctx comp log bl).comp p 0 ∧
        dgetD (processComponents cctx comp log bl).comp p 0 ≤ dgetD comp p 0 := by
  intro bl
  induction bl with
  | nil =>
    intro comp log hc p
    simp only [processComponents]
    exact ⟨hc p, le_refl _⟩
  | cons c rest ih =>
    intro comp log hc p
    by_cases hq : scrapQpu c ≤ 0
    · simp only [processComponents, if_pos hq]
      exact ih comp log hc p
    · simp only [processComponents, if_neg hq]
      have hqpu : 0 < scrapQpu c := not_le.mp hq
      have hreq : 0 ≤ cctx.finalCanProduce * scrapQpu c := mul_nonneg hfcp hqpu.le
      have ha0 : 0 ≤ min (dgetD comp (pyStrip c.partNumber) 0) (cctx.finalCanProduce * scrapQpu c) :=
        le_min (hc _) hreq
      have hab : min (dgetD comp (pyStrip c.partNumber) 0) (cctx.finalCanProduce * scrapQpu c)
          ≤ dgetD comp (pyStrip c.partNumber) 0 := min_le_left _ _
      have hsub := fun p => dgetD_dmodify_sub_le comp (pyStrip c.partNumber) _ ha0 hab p
      have hc' : ∀ p, 0 ≤ dgetD (dmodify comp (pyStrip c.partNumber)
          (fun v => v - min (dgetD comp (pyStrip c.partNumber) 0)
            (cctx.finalCanProduce * scrapQpu c))) p 0 :=
        fun p => (hsub p).2 (hc p)
      exact ⟨(ih _ _ hc' p).1, le_trans ((ih _ _ hc' p).2) (hsub p).1⟩

/-- The constrained producible quantity of the production branch is
nonnegative (each `max_build` is nonnegative and so is the net target). -/
theorem prodBranch_fcp_nonneg (ctx : Ctx) (hctx : CtxQcNonneg ctx) (st : PoolState)
    (so : SalesOrder) (needed : ℚ) (hneeded : 0 < needed)
    (hC : ∀ p, 0 ≤ dgetD st.comp p 0) :
    0 ≤ (if (bomsFor ctx.boms (pyStrip so.part)).isEmpty then (0 : ℚ)
      else
        match minList ((buildCalcs ctx.compInv st.comp (bomsFor ctx.boms (pyStrip so.part))).map (fun c => c.2)) with
        | none => needed
        | some m => min m needed) := by
  split_ifs with hbe
  · exact le_refl 0
  · rcases hm : minList ((buildCalcs ctx.compInv st.comp (bomsFor ctx.boms (pyStrip so.part))).map (fun c => c.2)) with _ | m
    · rw [hm]
      exact hneeded.le
    · rw [hm]
      have hmem := minList_mem _ _ hm
      simp only [List.mem_map] at hmem
      obtain ⟨x, hx, hxm⟩ := hmem
      have hx2 := buildCalcs_nonneg ctx.compInv st.comp _ hC hctx x hx
      exact le_min (hxm ▸ hx2) hneeded.le

/-- Helper packaging `processComponents_comp_bounds` at the production
branch's component context. -/
theorem processComponents_comp_aux (ctx : Ctx) (st : PoolState) (so : SalesOrder)
    (needed : ℚ)
    (hfcp : 0 ≤ (if (bomsFor ctx.boms (pyStrip so.part)).isEmpty then (0 : ℚ)
      else
        match minList ((buildCalcs ctx.compInv st.comp (bomsFor ctx.boms (pyStrip so.part))).map (fun c => c.2)) with
        | none => needed
        | some m => min m needed))
    (hC : ∀ p, 0 ≤ dgetD st.comp p 0) (p : String) :
    0 ≤ dgetD (processComponents
        ⟨ctx.compInv, ctx.purchaseOrders, so.so, so.ordQty, needed,
          (if (bomsFor ctx.boms (pyStrip so.part)).isEmpty then (0 : ℚ)
            else
              match minList ((buildCalcs ctx.compInv st.comp (bomsFor ctx.boms (pyStrip so.part))).map (fun c => c.2)) with
              | none => needed
              | some m => min m needed)⟩
        st.comp st.allocLog (bomsFor ctx.boms (pyStrip so.part))).comp p 0 ∧
    dgetD (processComponents
        ⟨ctx.compInv, ctx.purchaseOrders, so.so, so.ordQty, needed,
          (if (bomsFor ctx.boms (pyStrip so.part)).isEmpty then (0 : ℚ)
            else
              match minList ((buildCalcs ctx.compInv st.comp (bomsFor ctx.boms (pyStrip so.part))).map (fun c => c.2)) with
              | none => needed
              | some m => min m needed)⟩
        st.comp st.allocLog (bomsFor ctx.boms (pyStrip so.part))).comp p 0 ≤ dgetD st.comp p 0 :=
  processComponents_comp_bounds _ hfcp _ st.comp st.allocLog hC p

/-- The production branch never touches the finished-good pools, and only
lowers the component pool, keeping it nonnegative. -/
theorem prodBranch_pools (ctx : Ctx) (hctx : CtxQcNonneg ctx) (st : PoolState)
    (so : SalesOrder) (fgStatic : FgInv) (jobs : List JobEntry) (fulfilled needed : ℚ)
    (hneeded : 0 < needed) (hC : ∀ p, 0 ≤ dgetD st.comp p 0) :
    (prodBranch ctx st so fgStatic jobs fulfilled needed).1.fgA = st.fgA ∧
    (prodBranch ctx st so fgStatic jobs fulfilled needed).1.fgQc = st.fgQc ∧
    (∀ p, 0 ≤ dgetD (prodBranch ctx st so fgStatic jobs fulfilled needed).1.comp p 0 ∧
      dgetD (prodBranch ctx st so fgStatic jobs fulfilled needed).1.comp p 0 ≤ dgetD st.comp p 0) := by
  have hfcp := prodBranch_fcp_nonneg ctx hctx st so needed hneeded hC
  exact ⟨rfl, rfl, fun p => processComponents_comp_aux ctx st so needed hfcp hC p⟩

/-- **Step lemma for the pool invariants** — given nonnegative inputs, one
engine step keeps all three live pools nonnegative and never increases any
pool value. -/
theorem processSO_pools (ctx : Ctx) (hctx : CtxQcNonneg ctx) (st : PoolState) (so : SalesOrder)
    (hst : PoolsNonneg st) (hso : 0 ≤ so.ordQty) :
    PoolsNonneg (processSO ctx st so).1 ∧
    (∀ p, dgetD (processSO ctx st so).1.fgA p 0 ≤ dgetD st.fgA p 0) ∧
    (∀ p, dgetD (processSO ctx st so).1.fgQc p 0 ≤ dgetD st.fgQc p 0) ∧
    (∀ p, dgetD (processSO ctx st so).1.comp p 0 ≤ dgetD st.comp p 0) := by
  obtain ⟨hA, hQ, hC⟩ := hst
  have hful0 : 0 ≤ min so.ordQty (dgetD st.fgA (pyStrip so.part) 0) := le_min hso (hA _)
  have hfulA : min so.ordQty (dgetD st.fgA (pyStrip so.part) 0) ≤ dgetD st.fgA (pyStrip so.part) 0 :=
    min_le_right _ _
  have hsubA := fun p => dgetD_dmodify_sub_le st.fgA (pyStrip so.part) _ hful0 hfulA p
  simp only [processSO]
  split_ifs with h1 h2
  · exact ⟨⟨fun p => (hsubA p).2 (hA p), hQ, hC⟩, fun p => (hsubA p).1,
      fun p => le_refl _, fun p => le_refl _⟩
  · have hneed0 : 0 ≤ so.ordQty - min so.ordQty (dgetD st.fgA (pyStrip so.part) 0) :=
      (not_le.mp h1).le
    have hsubQ := fun p => dgetD_dmodify_sub_le st.fgQc (pyStrip so.part) _ hneed0 h2 p
    exact ⟨⟨fun p => (hsubA p).2 (hA p), fun p => (hsubQ p).2 (hQ p), hC⟩,
      fun p => (hsubA p).1, fun p => (hsubQ p).1, fun p => le_refl _⟩
  · have hneeded : 0 < so.ordQty - min so.ordQty (dgetD st.fgA (pyStrip so.part) 0) := not_le.mp h1
    have hpb := prodBranch_pools ctx hctx
      (PoolState.mk (dmodify st.fgA (pyStrip so.part)
          (fun v => v - min so.ordQty (dgetD st.fgA (pyStrip so.part) 0))) st.fgQc st.comp st.allocLog)
      so (dgetD ctx.fgMap (pyStrip so.part) ⟨0, 0, 0⟩) (jobsForSo ctx.openJobs so.so)
      (min so.ordQty (dgetD st.fgA (pyStrip so.part) 0))
      (so.ordQty - min so.ordQty (dgetD st.fgA (pyStrip so.part) 0))
      hneeded hC
    obtain ⟨hfa, hfq, hcomp⟩ := hpb
    refine ⟨⟨?_, ?_, fun p => (hcomp p).1⟩, ?_, ?_, fun p => (hcomp p).2⟩
    · intro p
      rw [hfa]
      exact (hsubA p).2 (hA p)
    · intro p
      rw [hfq]
      exact hQ p
    · intro p
      rw [hfa]
      exact (hsubA p).1
    · intro p
      rw [hfq]

/-- Every binding of a `dinsert` fold carries one of the inserted values (or
came from the seed map). -/
theorem foldl_dinsert_values {γ β : Type} (key : γ → String) (val : γ → β)
    (P : β → Prop) (rows : List γ) (m₀ : List (String × β))
    (hm : ∀ kv ∈ m₀, P kv.2) (hrows : ∀ r ∈ rows, P (val r)) :
    ∀ kv ∈ rows.foldl (fun acc r => dinsert acc (key r) (val r)) m₀, P kv.2 := by
  induction rows generalizing m₀ with
  | nil => simpa using hm
  | cons r rest ih =>
    simp only [List.foldl_cons]
    refine ih (dinsert m₀ (key r) (val r)) ?_ (fun x hx => hrows x (by simp [hx]))
    intro kv hkv
    -- membership in a dinsert
    clear ih
    induction m₀ with
    | nil =>
      simp [dinsert] at hkv
      rw [hkv]
      exact hrows r (by simp)
    | cons a tail ihm =>
      simp only [dinsert] at hkv
      split_ifs at hkv with hk
      · rcases List.mem_cons.mp hkv with h | h
        · rw [h]
          exact hrows r (by simp)
        · exact hm _ (List.mem_cons_of_mem a h)
      · rcases List.mem_cons.mp hkv with h | h
        · rw [h]
          exact hm a (by simp)
        · exact ihm (fun x hx => hm x (List.mem_cons_of_mem a hx)) h

/-- Nonnegative snapshot rows give nonnegative initial live pools. -/
theorem initPools_nonneg (snap : Snapshot) (h : NonnegSnapshot snap) :
    PoolsNonneg (initPools snap) := by
  obtain ⟨-, hfg, hcomp⟩ := h
  have hfgv : ∀ kv ∈ mkFgMap snap.fgInventoryRows, 0 ≤ kv.2.approved ∧ 0 ≤ kv.2.pendingQc := by
    refine foldl_dinsert_values _ _ (fun v : FgInv => 0 ≤ v.approved ∧ 0 ≤ v.pendingQc) _ [] (by simp) ?_
    intro r hr
    exact hfg r hr
  have hcompv : ∀ kv ∈ mkCompInv snap.componentInventoryRows, 0 ≤ kv.2.approved := by
    refine foldl_dinsert_values _ _ (fun v : CompInv => 0 ≤ v.approved) _ [] (by simp) ?_
    intro r hr
    exact (hcomp r hr).1
  refine ⟨?_, ?_, ?_⟩
  · exact dgetD_foldl_dinsert _ _ (fun v => 0 ≤ v) 0 _ [] (by simp [dgetD, dget?])
      (fun kv hkv => (hfgv kv hkv).1)
  · exact dgetD_foldl_dinsert _ _ (fun v => 0 ≤ v) 0 _ [] (by simp [dgetD, dget?])
      (fun kv hkv => (hfgv kv hkv).2)
  · exact dgetD_foldl_dinsert _ _ (fun v => 0 ≤ v) 0 _ [] (by simp [dgetD, dget?])
      (fun kv hkv => hcompv kv hkv)

/-- Nonnegative snapshot rows give nonnegative static pending-QC lookups. -/
theorem mkCtx_qcNonneg (snap : Snapshot) (h : NonnegSnapshot snap) :
    CtxQcNonneg (mkCtx snap) := by
  obtain ⟨-, -, hcomp⟩ := h
  exact dgetD_foldl_dinsert _ _ (fun v : CompInv => 0 ≤ v.pendingQc) ⟨0, 0, 0, 0, 0⟩ _ []
    (by simp [dgetD, dget?]) (fun r hr => (hcomp r hr).2)

/-- A run's state list always starts with the initial state. -/
theorem runStates_head (ctx : Ctx) (sos : List SalesOrder) (st : PoolState) :
    ∃ t, runStates ctx st sos = st :: t := by
  cases sos <;> simp [runStates]

/-- A run's state list ends with the final state. -/
theorem runStates_getLast? (ctx : Ctx) (sos : List SalesOrder) :
    ∀ st : PoolState, (runStates ctx st sos).getLast? = some (finalPoolState ctx st sos) := by
  induction sos with
  | nil => intro st; simp [runStates, finalPoolState]
  | cons so rest ih =>
    intro st
    obtain ⟨t, ht⟩ := runStates_head ctx rest (processSO ctx st so).1
    simp only [runStates, finalPoolState]
    rw [ht, List.getLast?_cons_cons, ← ht, ih]

/-- Along a run with nonnegative inputs, every traversed state has
nonnegative pools and consecutive states only move pool values downward. -/
theorem runStates_nonneg_chain (ctx : Ctx) (hctx : CtxQcNonneg ctx) (sos : List SalesOrder) :
    ∀ st : PoolState, PoolsNonneg st → (∀ so ∈ sos, 0 ≤ so.ordQty) →
      (∀ st' ∈ runStates ctx st sos, PoolsNonneg st') ∧
      List.Chain' (fun s t => ∀ p, dgetD t.fgA p 0 ≤ dgetD s.fgA p 0 ∧
        dgetD t.fgQc p 0 ≤ dgetD s.fgQc p 0 ∧ dgetD t.comp p 0 ≤ dgetD s.comp p 0)
        (runStates ctx st sos) := by
  induction sos with
  | nil =>
    intro st hst _
    constructor
    · intro st' hst'
      simp [runStates] at hst'
      rw [hst']
      exact hst
    · simp [runStates]
  | cons so rest ih =>
    intro st hst hsos
    have hstep := processSO_pools ctx hctx st so hst (hsos so (by simp))
    have hrec := ih (processSO ctx st so).1 hstep.1 (fun x hx => hsos x (by simp [hx]))
    constructor
    · intro st' hst'
      simp only [runStates, List.mem_cons] at hst'
      rcases hst' with h | h
      · rw [h]; exact hst
      · exact hrec.1 st' h
    · obtain ⟨t, ht⟩ := runStates_head ctx rest (processSO ctx st so).1
      simp only [runStates]
      rw [ht]
      refine List.chain'_cons.mpr ⟨?_, ?_⟩
      · intro p
        exact ⟨hstep.2.1 p, hstep.2.2.1 p, hstep.2.2.2 p⟩
      · rw [← ht]
        exact hrec.2

/-- Telescoping identity: the last value of a nonempty trace is its first
value minus the sum of its step decreases. -/
theorem getLast?_eq_headD_sub_stepDrops (l : List ℚ) (h : l ≠ []) :
    l.getLast?.getD 0 = l.headD 0 - (stepDrops l).sum := by
  induction l with
  | nil => cases h rfl
  | cons a as ih =>
    cases as with
    | nil => simp [stepDrops]
    | cons b bs =>
      have hh := ih (by simp)
      have h1 : (a :: b :: bs).getLast? = (b :: bs).getLast? := List.getLast?_cons_cons
      have h2 : stepDrops (a :: b :: bs) = (a - b) :: stepDrops (b :: bs) := rfl
      rw [h1, h2]
      simp only [List.sum_cons, List.headD_cons] at hh ⊢
      rw [hh]
      ring

/-- `getLast?` commutes with `map`. -/
theorem getLast?_map_eq {α β' : Type} (f : α → β') :
    ∀ l : List α, (l.map f).getLast? = l.getLast?.map f := by
  intro l
  induction l with
  | nil => rfl
  | cons a as ih =>
    cases as with
    | nil => rfl
    | cons b bs =>
      simp only [List.map_cons] at ih ⊢
      rw [List.getLast?_cons_cons, ih, List.getLast?_cons_cons]

/-- The state list of a run is never empty. -/
theorem mrpStates_ne_nil (snap : Snapshot) : mrpStates snap ≠ [] := by
  obtain ⟨t, ht⟩ := runStates_head (mkCtx snap) (prioritySort snap.salesOrders) (initPools snap)
  unfold mrpStates
  rw [ht]
  simp

/-- **C4** — For every part, each of the three live pools (finished-good
approved, finished-good pending-QC, component approved) is monotonically
non-increasing over the sequence of demand lines processed in one engine run
(hence never re-credited), is never negative, and its final value equals its
initial value minus the sum of all per-step deductions — assuming the
snapshot's ordered and inventory quantities are nonnegative. -/
theorem C4_live_pools_monotone (snap : Snapshot) (h : NonnegSnapshot snap) (p : String) :
    List.Chain' (fun a b => b ≤ a) (traceFgA snap p) ∧
    List.Chain' (fun a b => b ≤ a) (traceFgQc snap p) ∧
    List.Chain' (fun a b => b ≤ a) (traceComp snap p) ∧
    (∀ x ∈ traceFgA snap p, 0 ≤ x) ∧
    (∀ x ∈ traceFgQc snap p, 0 ≤ x) ∧
    (∀ x ∈ traceComp snap p, 0 ≤ x) ∧
    dgetD (mrpFinalState snap).fgA p 0 = dgetD (initPools snap).fgA p 0 - (stepDrops (traceFgA snap p)).sum ∧
    dgetD (mrpFinalState snap).fgQc p 0 = dgetD (initPools snap).fgQc p 0 - (stepDrops (traceFgQc snap p)).sum ∧
    dgetD (mrpFinalState snap).comp p 0 = dgetD (initPools snap).comp p 0 - (stepDrops (traceComp snap p)).sum := by
  have hinit := initPools_nonneg snap h
  have hctx := mkCtx_qcNonneg snap h
  have hQ : ∀ so ∈ prioritySort snap.salesOrders, 0 ≤ so.ordQty := by
    intro so hso
    exact h.1 so ((mem_sortWith _ _ so).mp hso)
  have hrun := runStates_nonneg_chain (mkCtx snap) hctx (prioritySort snap.salesOrders)
    (initPools snap) hinit hQ
  have hchainA : List.Chain' (fun a b => b ≤ a) (traceFgA snap p) := by
    unfold traceFgA mrpStates
    rw [List.chain'_map]
    exact hrun.2.imp (fun _ _ hab => (hab p).1)
  have hchainQ : List.Chain' (fun a b => b ≤ a) (traceFgQc snap p) := by
    unfold traceFgQc mrpStates
    rw [List.chain'_map]
    exact hrun.2.imp (fun _ _ hab => (hab p).2.1)
  have hchainC : List.Chain' (fun a b => b ≤ a) (traceComp snap p) := by
    unfold traceComp mrpStates
    rw [List.chain'_map]
    exact hrun.2.imp (fun _ _ hab => (hab p).2.2)
  have hmemA : ∀ x ∈ traceFgA snap p, 0 ≤ x := by
    intro x hx
    unfold traceFgA at hx
    obtain ⟨st', hst', hfx⟩ := List.mem_map.mp hx
    rw [← hfx]
    exact (hrun.1 st' hst').1 p
  have hmemQ : ∀ x ∈ traceFgQc snap p, 0 ≤ x := by
    intro x hx
    unfold traceFgQc at hx
    obtain ⟨st', hst', hfx⟩ := List.mem_map.mp hx
    rw [← hfx]
    exact (hrun.1 st' hst').2.1 p
  have hmemC : ∀ x ∈ traceComp snap p, 0 ≤ x := by
    intro x hx
    unfold traceComp at hx
    obtain ⟨st', hst', hfx⟩ := List.mem_map.mp hx
    rw [← hfx]
    exact (hrun.1 st' hst').2.2 p
  obtain ⟨t, ht⟩ := runStates_head (mkCtx snap) (prioritySort snap.salesOrders) (initPools snap)
  have haccA : dgetD (mrpFinalState snap).fgA p 0
      = dgetD (initPools snap).fgA p 0 - (stepDrops (traceFgA snap p)).sum := by
    have h1 := getLast?_eq_headD_sub_stepDrops (traceFgA snap p)
      (by unfold traceFgA; simp [mrpStates_ne_nil snap])
    have h2 : (traceFgA snap p).getLast? = some (dgetD (mrpFinalState snap).fgA p 0) := by
      unfold traceFgA mrpFinalState
      rw [getLast?_map_eq, mrpStates, runStates_getLast?]
      rfl
    have h3 : (traceFgA snap p).headD 0 = dgetD (initPools snap).fgA p 0 := by
      unfold traceFgA mrpStates
      rw [ht]
      rfl
    rw [h2] at h1
    simp only [Option.getD_some] at h1
    rw [h3] at h1
    exact h1
  have haccQ : dgetD (mrpFinalState snap).fgQc p 0
      = dgetD (initPools snap).fgQc p 0 - (stepDrops (traceFgQc snap p)).sum := by
    have h1 := getLast?_eq_headD_sub_stepDrops (traceFgQc snap p)
      (by unfold traceFgQc; simp [mrpStates_ne_nil snap])
    have h2 : (traceFgQc snap p).getLast? = some (dgetD (mrpFinalState snap).fgQc p 0) := by
      unfold traceFgQc mrpFinalState
      rw [getLast?_map_eq, mrpStates, runStates_getLast?]
      rfl
    have h3 : (traceFgQc snap p).headD 0 = dgetD (initPools snap).fgQc p 0 := by
      unfold traceFgQc mrpStates
      rw [ht]
      rfl
    rw [h2] at h1
    simp only [Option.getD_some] at h1
    rw [h3] at h1
    exact h1
  have haccC : dgetD (mrpFinalState snap).comp p 0
      = dgetD (initPools snap).comp p 0 - (stepDrops (traceComp snap p)).sum := by
    have h1 := getLast?_eq_headD_sub_stepDrops (traceComp snap p)
      (by unfold traceComp; simp [mrpStates_ne_nil snap])
    have h2 : (traceComp snap p).getLast? = some (dgetD (mrpFinalState snap).comp p 0) := by
      unfold traceComp mrpFinalState
      rw [getLast?_map_eq, mrpStates, runStates_getLast?]
      rfl
    have h3 : (traceComp snap p).headD 0 = dgetD (initPools snap).comp p 0 := by
      unfold traceComp mrpStates
      rw [ht]
      rfl
    rw [h2] at h1
    simp only [Option.getD_some] at h1
    rw [h3] at h1
    exact h1
  exact ⟨hchainA, hchainQ, hchainC, hmemA, hmemQ, hmemC, haccA, haccQ, haccC⟩

/-- **C4 witness** — the accounting identity for the contested component at a
concrete two-line run. -/
theorem C4_witness :
    dgetD (mrpFinalState snapC4).comp "CD" 0
      = dgetD (initPools snapC4).comp "CD" 0 - (stepDrops (traceComp snapC4 "CD")).sum :=
  (C4_live_pools_monotone snapC4 (by unfold NonnegSnapshot; with_unfolding_all decide) "CD").2.2.2.2.2.2.2.2

/-! ## Ledger accounting (C5) -/

/-- An absent key reads as the default. -/
theorem dgetD_of_not_mem {β : Type} (m : List (String × β)) (k : String) (dflt : β)
    (h : dmem m k = false) : dgetD m k dflt = dflt := by
  unfold dmem at h
  unfold dgetD
  rcases hg : dget? m k with _ | v
  · rfl
  · rw [hg] at h; simp at h

/-- Reading through a single appended binding. -/
theorem dget?_append_single {β : Type} (m : List (String × β)) (k : String) (v : β) (p : String) :
    dget? (m ++ [(k, v)]) p =
      match dget? m p with
      | some w => some w
      | none => if k = p then some v else none := by
  induction m with
  | nil => simp [dget?]
  | cons a rest ih =>
    obtain ⟨ka, va⟩ := a
    by_cases hk : ka = p
    · simp [dget?, hk]
    · simp only [List.cons_append, dget?, if_neg hk]
      exact ih

/-- Appending a fresh empty ledger list changes no allocation sum. -/
theorem allocSumFor_append_empty (log : List (String × List AllocEntry)) (k p : String) :
    allocSumFor (log ++ [(k, [])]) p = allocSumFor log p := by
  unfold allocSumFor dgetD
  rw [dget?_append_single]
  rcases hg : dget? log p with _ | l
  · split_ifs <;> simp
  · rfl

/-- The ensured-key step makes the key present. -/
theorem dmem_ensure {β : Type} (log : List (String × β)) (k : String) (v : β) :
    dmem (if dmem log k then log else log ++ [(k, v)]) k = true := by
  by_cases h : dmem log k
  · simp [h]
  · rw [if_neg (by simp [h])]
    unfold dmem at h ⊢
    rw [dget?_append_single]
    rcases hg : dget? log k with _ | l
    · simp
    · rw [hg] at h
      simp at h

/-- Exact effect of the guarded subtraction on the modified key when the key
is present. -/
theorem dgetD_dmodify_sub_eq (m : List (String × ℚ)) (k : String) (x : ℚ)
    (h : dmem m k = true) :
    dgetD (dmodify m k (fun v => v - x)) k 0 = dgetD m k 0 - x := by
  unfold dmem at h
  rcases hg : dget? m k with _ | v
  · rw [hg] at h; simp at h
  · unfold dgetD
    rw [dget?_dmodify, if_pos rfl, hg]
    simp

/-- Exact effect of a ledger append on the allocation sum of the modified
key when the key is present. -/
theorem allocSumFor_dmodify_append (log : List (String × List AllocEntry)) (k : String)
    (e : AllocEntry) (h : dmem log k = true) :
    allocSumFor (dmodify log k (fun l => l ++ [e])) k = allocSumFor log k + e.allocated := by
  unfold dmem at h
  rcases hg : dget? log k with _ | l
  · rw [hg] at h; simp at h
  · unfold allocSumFor dgetD
    rw [dget?_dmodify, if_pos rfl, hg]
    simp

/-- Ledger sums of other keys are unchanged by `dmodify`. -/
theorem allocSumFor_dmodify_ne (log : List (String × List AllocEntry)) (k p : String)
    (f : List AllocEntry → List AllocEntry) (h : k ≠ p) :
    allocSumFor (dmodify log k f) p = allocSumFor log p := by
  unfold allocSumFor dgetD
  rw [dget?_dmodify, if_neg h]

/-- Ledger sums of other keys are unchanged by the ensure step. -/
theorem allocSumFor_ensure_ne (log : List (String × List AllocEntry)) (k p : String) :
    allocSumFor (if dmem log k then log else log ++ [(k, [])]) p = allocSumFor log p := by
  by_cases h : dmem log k
  · simp [h]
  · simp only [h, if_false]
    exact allocSumFor_append_empty log k p

/-- **Ledger invariant of the second BOM pass** — the recorded allocation sum
plus the remaining live quantity of every part is conserved. -/
theorem processComponents_ledger (cctx : CompCtx) (hfcp : 0 ≤ cctx.finalCanProduce) :
    ∀ (bl : List BomLine) (comp : List (String × ℚ)) (log : List (String × List AllocEntry)),
      (∀ p, 0 ≤ dgetD comp p 0) →
      ∀ p, allocSumFor (processComponents cctx comp log bl).log p
            + dgetD (processComponents cctx comp log bl).comp p 0
          = allocSumFor log p + dgetD comp p 0 := by
  intro bl
  induction bl with
  | nil =>
    intro comp log _ p
    simp [processComponents]
  | cons c rest ih =>
    intro comp log hc p
    by_cases hq : scrapQpu c ≤ 0
    · simp only [processComponents, if_pos hq]
      exact ih comp log hc p
    · simp only [processComponents, if_neg hq]
      have hqpu : 0 < scrapQpu c := not_le.mp hq
      have hreq : 0 ≤ cctx.finalCanProduce * scrapQpu c := mul_nonneg hfcp hqpu.le
      have ha0 : 0 ≤ min (dgetD comp (pyStrip c.partNumber) 0) (cctx.finalCanProduce * scrapQpu c) :=
        le_min (hc _) hreq
      have hab : min (dgetD comp (pyStrip c.partNumber) 0) (cctx.finalCanProduce * scrapQpu c)
          ≤ dgetD comp (pyStrip c.partNumber) 0 := min_le_left _ _
      have hsub := fun p => dgetD_dmodify_sub_le comp (pyStrip c.partNumber) _ ha0 hab p
      have hc' : ∀ p, 0 ≤ dgetD (dmodify comp (pyStrip c.partNumber)
          (fun v => v - min (dgetD comp (pyStrip c.partNumber) 0)
            (cctx.finalCanProduce * scrapQpu c))) p 0 :=
        fun p => (hsub p).2 (hc p)
      rw [ih _ _ hc' p]
      -- remaining: one-step conservation for this BOM line
      by_cases hp : pyStrip c.partNumber = p
      · subst hp
        by_cases hmem : dmem comp (pyStrip c.partNumber)
        · rw [dgetD_dmodify_sub_eq comp (pyStrip c.partNumber) _ hmem]
          by_cases hpos : 0 < min (dgetD comp (pyStrip c.partNumber) 0) (cctx.finalCanProduce * scrapQpu c)
          · rw [if_pos hpos,
              allocSumFor_dmodify_append _ _ _ (dmem_ensure log (pyStrip c.partNumber) []),
              allocSumFor_ensure_ne]
            ring
          · rw [if_neg hpos]
            have hz : min (dgetD comp (pyStrip c.partNumber) 0) (cctx.finalCanProduce * scrapQpu c) = 0 :=
              le_antisymm (not_lt.mp hpos) ha0
            rw [allocSumFor_ensure_ne, hz]
            ring
        · have hz0 : dgetD comp (pyStrip c.partNumber) 0 = 0 := dgetD_of_not_mem _ _ _ (by simpa using hmem)
          have hz : min (dgetD comp (pyStrip c.partNumber) 0) (cctx.finalCanProduce * scrapQpu c) = 0 := by
            rw [hz0]
            exact le_antisymm (min_le_left _ _) (le_min (le_refl 0) hreq)
          rw [dmodify_absent comp _ _ (by simpa using hmem), hz]
          rw [if_neg (by simp)]
          rw [allocSumFor_ensure_ne]
      · rw [dgetD_dmodify, if_neg hp]
        by_cases hpos : 0 < min (dgetD comp (pyStrip c.partNumber) 0) (cctx.finalCanProduce * scrapQpu c)
        · rw [if_pos hpos, allocSumFor_dmodify_ne _ _ _ _ hp, allocSumFor_ensure_ne]
        · rw [if_neg hpos, allocSumFor_ensure_ne]

/-- One engine step conserves ledger sum plus live component quantity for
every part. -/
theorem processSO_ledger (ctx : Ctx) (hctx : CtxQcNonneg ctx) (st : PoolState) (so : SalesOrder)
    (hst : PoolsNonneg st) (_hso : 0 ≤ so.ordQty) (p : String) :
    allocSumFor (processSO ctx st so).1.allocLog p + dgetD (processSO ctx st so).1.comp p 0
      = allocSumFor st.allocLog p + dgetD st.comp p 0 := by
  obtain ⟨hA, hQ, hC⟩ := hst
  simp only [processSO]
  split_ifs with h1 h2
  · rfl
  · rfl
  · have hneeded : 0 < so.ordQty - min so.ordQty (dgetD st.fgA (pyStrip so.part) 0) := not_le.mp h1
    have hfcp := prodBranch_fcp_nonneg ctx hctx
      (PoolState.mk (dmodify st.fgA (pyStrip so.part)
          (fun v => v - min so.ordQty (dgetD st.fgA (pyStrip so.part) 0))) st.fgQc st.comp st.allocLog)
      so _ hneeded hC
    simp only [prodBranch]
    exact processComponents_ledger _ hfcp _ st.comp st.allocLog hC p

/-- Run-level ledger accounting: after a whole run, what the ledger records
for a part plus what remains in the live pool equals the seeded quantity. -/
theorem finalPoolState_ledger (ctx : Ctx) (hctx : CtxQcNonneg ctx) (sos : List SalesOrder) :
    ∀ st : PoolState, PoolsNonneg st → (∀ so ∈ sos, 0 ≤ so.ordQty) → ∀ p,
      allocSumFor (finalPoolState ctx st sos).allocLog p
          + dgetD (finalPoolState ctx st sos).comp p 0
        = allocSumFor st.allocLog p + dgetD st.comp p 0 := by
  induction sos with
  | nil => intro st _ _ p; simp [finalPoolState]
  | cons so rest ih =>
    intro st hst hsos p
    have hstep := processSO_pools ctx hctx st so hst (hsos so (by simp))
    simp only [finalPoolState]
    rw [ih (processSO ctx st so).1 hstep.1 (fun x hx => hsos x (by simp [hx])) p]
    exact processSO_ledger ctx hctx st so hst (hsos so (by simp)) p

/-- The final pool state of a run with nonnegative inputs has nonnegative
pools. -/
theorem finalPoolState_nonneg (ctx : Ctx) (hctx : CtxQcNonneg ctx) (sos : List SalesOrder) :
    ∀ st : PoolState, PoolsNonneg st → (∀ so ∈ sos, 0 ≤ so.ordQty) →
      PoolsNonneg (finalPoolState ctx st sos) := by
  induction sos with
  | nil => intro st hst _; exact hst
  | cons so rest ih =>
    intro st hst hsos
    have hstep := processSO_pools ctx hctx st so hst (hsos so (by simp))
    exact ih (processSO ctx st so).1 hstep.1 (fun x hx => hsos x (by simp [hx]))

/-- **C5** — For every component part, the total quantity the run's ledger
records as allocated from that part's live component pool never exceeds the
part's initial approved quantity plus its static pending-QC quantity —
assuming the snapshot's ordered and inventory quantities are nonnegative. -/
theorem C5_cumulative_allocation_bounded (snap : Snapshot) (h : NonnegSnapshot snap) (p : String) :
    allocSumFor (mrpFinalState snap).allocLog p
      ≤ dgetD (initPools snap).comp p 0
        + (dgetD (mkCtx snap).compInv p ⟨0, 0, 0, 0, 0⟩).pendingQc := by
  have hinit := initPools_nonneg snap h
  have hctx := mkCtx_qcNonneg snap h
  have hQ : ∀ so ∈ prioritySort snap.salesOrders, 0 ≤ so.ordQty := by
    intro so hso
    exact h.1 so ((mem_sortWith _ _ so).mp hso)
  have hacc := finalPoolState_ledger (mkCtx snap) hctx (prioritySort snap.salesOrders)
    (initPools snap) hinit hQ p
  have hfin := finalPoolState_nonneg (mkCtx snap) hctx (prioritySort snap.salesOrders)
    (initPools snap) hinit hQ
  have hzero : allocSumFor (initPools snap).allocLog p = 0 := by
    simp [initPools, allocSumFor, dgetD, dget?]
  unfold mrpFinalState
  have h1 : allocSumFor (finalPoolState (mkCtx snap) (initPools snap) (prioritySort snap.salesOrders)).allocLog p
      = dgetD (initPools snap).comp p 0
        - dgetD (finalPoolState (mkCtx snap) (initPools snap) (prioritySort snap.salesOrders)).comp p 0 := by
    rw [hzero] at hacc
    linarith [hacc]
  rw [h1]
  have h2 := hfin.2.2 p
  have h3 := hctx p
  linarith

/-- **C5 witness** — the cumulative-allocation bound for the contested
component of a concrete two-line run. -/
theorem C5_witness :
    allocSumFor (mrpFinalState snapC4).allocLog "CD"
      ≤ dgetD (initPools snapC4).comp "CD" 0
        + (dgetD (mkCtx snapC4).compInv "CD" ⟨0, 0, 0, 0, 0⟩).pendingQc :=
  C5_cumulative_allocation_bounded snapC4 (by unfold NonnegSnapshot; with_unfolding_all decide) "CD"

/-! ## Status classification (C1, C2, C7, C10) -/

/-- Per-step status analysis: for a line that reached production planning,
the material status is `"partial-ship"` exactly when something was shipped
from approved stock, and with no open job the published status coincides
with the material status. -/
theorem processSO_C1_step (ctx : Ctx) (st : PoolState) (so : SalesOrder) :
    (processSO ctx st so).2.materialStatus ∈ prodStatuses →
      (((processSO ctx st so).2.materialStatus = "partial-ship" ↔
          0 < (processSO ctx st so).2.shippableQty) ∧
        (jobsForSo ctx.openJobs so.so = [] →
          (processSO ctx st so).2.status = (processSO ctx st so).2.materialStatus)) := by
  simp only [processSO]
  split_ifs with h1 h2
  · intro hm
    simp only [readyResult] at hm
    exact absurd hm (by decide)
  · intro hm
    simp only [pendingQcResult] at hm
    exact absurd hm (by decide)
  · intro _
    simp only [prodBranch]
    by_cases hful : 0 < min so.ordQty (dgetD st.fgA (pyStrip so.part) 0)
    · refine ⟨?_, ?_⟩
      · rw [if_pos hful]
        exact ⟨fun _ => hful, fun _ => rfl⟩
      · intro hjobs
        simp [hjobs]
    · refine ⟨?_, ?_⟩
      · rw [if_neg hful]
        constructor
        · intro hst0
          exfalso
          split_ifs at hst0 <;> exact absurd hst0 (by decide)
        · intro h0
          exact absurd h0 hful
      · intro hjobs
        simp [hjobs]

/-- **C1 (amended)** — For every demand line that reached production planning,
the material status is `"partial-ship"` if and only if `shippable > 0` —
regardless of whether production covers the full target — and, when the SO
has no open job, the published status equals that material status. -/
theorem C1_partial_ship_iff_shippable (snap : Snapshot) (r : OrderResult)
    (hr : r ∈ calculateMrpSuggestions snap) (hprod : r.materialStatus ∈ prodStatuses) :
    (r.materialStatus = "partial-ship" ↔ 0 < r.shippableQty) ∧
    (jobsForSo snap.openJobs r.so.so = [] → r.status = r.materialStatus) := by
  have hr' := (mem_calculateMrpSuggestions snap r).mp hr
  refine runLines_forall (P := fun r => r.materialStatus ∈ prodStatuses →
      ((r.materialStatus = "partial-ship" ↔ 0 < r.shippableQty) ∧
        (jobsForSo snap.openJobs r.so.so = [] → r.status = r.materialStatus)))
    (I := fun _ => True) (Q := fun _ => True) (mkCtx snap) ?_ (fun _ _ _ _ => trivial)
    _ _ trivial (fun _ _ => trivial) r hr' hprod
  intro st so _ _
  rw [processSO_so (mkCtx snap) st so]
  exact processSO_C1_step (mkCtx snap) st so

/-- **C1 witness** — the equivalence applied at a concrete
production-planning line. -/
theorem C1_witness :
    (((calculateMrpSuggestions snapC3).headD (readyResult ⟨0, "", "", none, 0⟩ ⟨0, 0, 0⟩ 0)).materialStatus
        = "partial-ship" ↔
      0 < ((calculateMrpSuggestions snapC3).headD (readyResult ⟨0, "", "", none, 0⟩ ⟨0, 0, 0⟩ 0)).shippableQty) ∧
    (jobsForSo snapC3.openJobs
        ((calculateMrpSuggestions snapC3).headD (readyResult ⟨0, "", "", none, 0⟩ ⟨0, 0, 0⟩ 0)).so.so = [] →
      ((calculateMrpSuggestions snapC3).headD (readyResult ⟨0, "", "", none, 0⟩ ⟨0, 0, 0⟩ 0)).status
        = ((calculateMrpSuggestions snapC3).headD (readyResult ⟨0, "", "", none, 0⟩ ⟨0, 0, 0⟩ 0)).materialStatus) :=
  C1_partial_ship_iff_shippable snapC3 _ (by with_unfolding_all decide) (by with_unfolding_all decide)

/-- **C1 counterexample** — a line with `shippable = 4 > 0` whose production
target (net 6) is fully producible (`producible = 6 ≥ 6`), yet whose status
is `"partial-ship"`, not `"ok"`: the claim that the status "stays ok" when
`shippable > 0` and `producible ≥ production target` is false. -/
theorem C1_counterexample :
    ((calculateMrpSuggestions snapC1).map (fun r => r.status) = ["partial-ship"] ∧
      (calculateMrpSuggestions snapC1).map (fun r => r.materialStatus) = ["partial-ship"]) ∧
    (calculateMrpSuggestions snapC1).map (fun r => r.shippableQty) = [4] ∧
    (calculateMrpSuggestions snapC1).map (fun r => r.producibleQty) = [6] ∧
    (calculateMrpSuggestions snapC1).map (fun r => r.netQty) = [6] := by
  with_unfolding_all decide

/-- Per-step job-overlay analysis: on a line that reached production
planning with at least one open job, the published status is forced to
`"job-created"`, the job list is attached, and — unless the line is a
partial ship — the bottleneck text is the job-progress summary. -/
theorem processSO_C2_step (ctx : Ctx) (st : PoolState) (so : SalesOrder) :
    (processSO ctx st so).2.materialStatus ∈ prodStatuses →
      jobsForSo ctx.openJobs so.so ≠ [] →
      ((processSO ctx st so).2.status = "job-created" ∧
        (processSO ctx st so).2.jobDetails = some (jobsForSo ctx.openJobs so.so) ∧
        ((processSO ctx st so).2.materialStatus ≠ "partial-ship" →
          (processSO ctx st so).2.bottleneck =
            jobOverlayText (jobsForSo ctx.openJobs so.so) (processSO ctx st so).2.bottleneckParts)) := by
  simp only [processSO]
  split_ifs with h1 h2
  · intro hm
    simp only [readyResult] at hm
    exact absurd hm (by decide)
  · intro hm
    simp only [pendingQcResult] at hm
    exact absurd hm (by decide)
  · intro _ hjobs
    have hje : (jobsForSo ctx.openJobs so.so).isEmpty = false := by
      rcases h' : jobsForSo ctx.openJobs so.so with _ | ⟨j, js⟩
      · exact absurd h' hjobs
      · rfl
    simp only [prodBranch, hje, Bool.false_eq_true, if_false]
    refine ⟨trivial, trivial, ?_⟩
    intro hnps
    rw [if_neg hnps]

/-- **C2 (amended)** — For every demand line that reached production planning
whose SO has one or more open jobs, the published status is forced to
`"job-created"` and the job list is attached; unless the line's material
status is `"partial-ship"` (i.e. some stock shipped), the bottleneck text is
the job-progress summary with any bottleneck-component names appended.
Lines fully satisfied from finished-good approved or pending-QC stock keep
`"ready-to-ship"`/`"pending-qc"`. -/
theorem C2_job_overlay (snap : Snapshot) (r : OrderResult)
    (hr : r ∈ calculateMrpSuggestions snap) (hprod : r.materialStatus ∈ prodStatuses)
    (hjobs : jobsForSo snap.openJobs r.so.so ≠ []) :
    r.status = "job-created" ∧
    r.jobDetails = some (jobsForSo snap.openJobs r.so.so) ∧
    (r.materialStatus ≠ "partial-ship" →
      r.bottleneck = jobOverlayText (jobsForSo snap.openJobs r.so.so) r.bottleneckParts) := by
  have hr' := (mem_calculateMrpSuggestions snap r).mp hr
  refine runLines_forall (P := fun r => r.materialStatus ∈ prodStatuses →
      jobsForSo snap.openJobs r.so.so ≠ [] →
      (r.status = "job-created" ∧
        r.jobDetails = some (jobsForSo snap.openJobs r.so.so) ∧
        (r.materialStatus ≠ "partial-ship" →
          r.bottleneck = jobOverlayText (jobsForSo snap.openJobs r.so.so) r.bottleneckParts)))
    (I := fun _ => True) (Q := fun _ => True) (mkCtx snap) ?_ (fun _ _ _ _ => trivial)
    _ _ trivial (fun _ _ => trivial) r hr' hprod hjobs
  intro st so _ _
  rw [processSO_so (mkCtx snap) st so]
  exact processSO_C2_step (mkCtx snap) st so

/-- **C2 witness** — the amended overlay behaviour at a concrete
production-planning line with one open job and no shipped stock: status
forced to `"job-created"`, job list attached, bottleneck text equal to the
job-progress summary. -/
theorem C2_witness :
    resC2.status = "job-created" ∧
    resC2.jobDetails = some (jobsForSo snapC2b.openJobs resC2.so.so) ∧
    (resC2.materialStatus ≠ "partial-ship" →
      resC2.bottleneck = jobOverlayText (jobsForSo snapC2b.openJobs resC2.so.so) resC2.bottleneckParts) :=
  C2_job_overlay snapC2b resC2
    (by
      have h : calculateMrpSuggestions snapC2b = [resC2] := by with_unfolding_all rfl
      rw [h]
      exact List.mem_singleton_self resC2)
    (by decide) (by decide)

set_option maxRecDepth 2000 in
/-- **C2 counterexample** — SO 21 has an open job yet its fully-shippable
line keeps status `"ready-to-ship"` (the overlay is not applied to lines
satisfied from stock), and SO 22 has an open job yet its bottleneck text is
the partial-ship text, not the job-progress summary: the claim as stated
(status forced for *every* line of an SO with open jobs, bottleneck always
replaced by the job summary) is false. -/
theorem C2_counterexample :
    (calculateMrpSuggestions snapC2).map (fun r => (r.status, r.bottleneck)) =
      [("ready-to-ship", "None"),
        ("job-created", "Partial Ship: 2 / Prod. Needed: 8 / Producible: 8")] ∧
    jobsForSo snapC2.openJobs 21 ≠ [] ∧
    jobsForSo snapC2.openJobs 22 ≠ [] ∧
    jobHeader (jobsForSo snapC2.openJobs 22) = "Job: 7200 (0/8)" := by
  with_unfolding_all decide

/-- One result is emitted per demand line: the run never aborts. -/
theorem runLines_length (ctx : Ctx) : ∀ (sos : List SalesOrder) (st : PoolState),
    (runLines ctx st sos).length = sos.length := by
  intro sos
  induction sos with
  | nil => intro st; rfl
  | cons so rest ih => intro st; simp [runLines, ih]

/-- The published result list has exactly one entry per demand line. -/
theorem calculateMrpSuggestions_length (snap : Snapshot) :
    (calculateMrpSuggestions snap).length = snap.salesOrders.length := by
  unfold calculateMrpSuggestions prioritySort
  rw [length_sortWith, runLines_length, length_sortWith]

/-- Per-step analysis of a missing BOM: producible falls to zero, no
component detail is built, no component pool or ledger entry is touched, and
— when nothing shipped from stock and no job exists — the line degrades to
`"critical"` / `"No BOM Found"`. -/
theorem processSO_C7_step (ctx : Ctx) (st : PoolState) (so : SalesOrder)
    (hnobom : bomsFor ctx.boms (pyStrip so.part) = []) :
    ((processSO ctx st so).2.materialStatus ∈ prodStatuses →
      ((processSO ctx st so).2.producibleQty = 0 ∧
        (processSO ctx st so).2.components = [] ∧
        ((processSO ctx st so).2.shippableQty ≤ 0 → jobsForSo ctx.openJobs so.so = [] →
          (processSO ctx st so).2.status = "critical" ∧
          (processSO ctx st so).2.bottleneck = "No BOM Found"))) ∧
    (processSO ctx st so).1.comp = st.comp ∧
    (processSO ctx st so).1.allocLog = st.allocLog := by
  simp only [processSO]
  split_ifs with h1 h2
  · refine ⟨?_, rfl, rfl⟩
    intro hm
    simp only [readyResult] at hm
    exact absurd hm (by decide)
  · refine ⟨?_, rfl, rfl⟩
    intro hm
    simp only [pendingQcResult] at hm
    exact absurd hm (by decide)
  · simp only [prodBranch, hnobom, List.isEmpty_nil, if_true, processComponents]
    refine ⟨?_, by trivial, by trivial⟩
    intro _
    refine ⟨by trivial, by trivial, ?_⟩
    intro hship hjobs
    have hful : ¬ (0 < min so.ordQty (dgetD st.fgA (pyStrip so.part) 0)) := not_lt.mpr hship
    have hje : (jobsForSo ctx.openJobs so.so).isEmpty = true := by
      rw [hjobs]; rfl
    simp only [if_neg hful, hje, if_true]
    exact ⟨by trivial, by trivial⟩

/-- **C7 (amended)** — For every demand line that reached production planning
whose part has no BOM lines: producible is 0 and the component-detail list is
empty; when additionally nothing shipped from approved stock and the SO has
no open job, the status is `"critical"` with bottleneck `"No BOM Found"`
(with stock shipped it becomes `"partial-ship"` with the partial-ship text
instead).  No component pool or ledger entry is touched by such a line, and
the run continues: one result is emitted per demand line. -/
theorem C7_missing_bom (snap : Snapshot) :
    (∀ r ∈ calculateMrpSuggestions snap, r.materialStatus ∈ prodStatuses →
      bomsFor snap.boms (pyStrip r.so.part) = [] →
      (r.producibleQty = 0 ∧ r.components = [] ∧
        (r.shippableQty ≤ 0 → jobsForSo snap.openJobs r.so.so = [] →
          r.status = "critical" ∧ r.bottleneck = "No BOM Found"))) ∧
    (∀ (st : PoolState) (so : SalesOrder), bomsFor snap.boms (pyStrip so.part) = [] →
      (processSO (mkCtx snap) st so).1.comp = st.comp ∧
      (processSO (mkCtx snap) st so).1.allocLog = st.allocLog) ∧
    (calculateMrpSuggestions snap).length = snap.salesOrders.length := by
  refine ⟨?_, ?_, calculateMrpSuggestions_length snap⟩
  · intro r hr
    have hr' := (mem_calculateMrpSuggestions snap r).mp hr
    refine runLines_forall (P := fun r => r.materialStatus ∈ prodStatuses →
        bomsFor snap.boms (pyStrip r.so.part) = [] →
        (r.producibleQty = 0 ∧ r.components = [] ∧
          (r.shippableQty ≤ 0 → jobsForSo snap.openJobs r.so.so = [] →
            r.status = "critical" ∧ r.bottleneck = "No BOM Found")))
      (I := fun _ => True) (Q := fun _ => True) (mkCtx snap) ?_ (fun _ _ _ _ => trivial)
      _ _ trivial (fun _ _ => trivial) r hr'
    intro st so _ _
    rw [processSO_so (mkCtx snap) st so]
    intro hm hnobom
    exact (processSO_C7_step (mkCtx snap) st so hnobom).1 hm
  · intro st so hnobom
    exact ⟨(processSO_C7_step (mkCtx snap) st so hnobom).2.1,
      (processSO_C7_step (mkCtx snap) st so hnobom).2.2⟩

set_option maxRecDepth 2000 in
/-- **C7 witness** — a no-BOM line with no stock and no job degrades to
`"critical"` / `"No BOM Found"` with producible 0 and no component details. -/
theorem C7_witness :
    ((calculateMrpSuggestions snapC7).getD 1 (readyResult ⟨0, "", "", none, 0⟩ ⟨0, 0, 0⟩ 0)).producibleQty = 0 ∧
    ((calculateMrpSuggestions snapC7).getD 1 (readyResult ⟨0, "", "", none, 0⟩ ⟨0, 0, 0⟩ 0)).components = [] ∧
    (((calculateMrpSuggestions snapC7).getD 1 (readyResult ⟨0, "", "", none, 0⟩ ⟨0, 0, 0⟩ 0)).shippableQty ≤ 0 →
      jobsForSo snapC7.openJobs
          ((calculateMrpSuggestions snapC7).getD 1 (readyResult ⟨0, "", "", none, 0⟩ ⟨0, 0, 0⟩ 0)).so.so = [] →
      ((calculateMrpSuggestions snapC7).getD 1 (readyResult ⟨0, "", "", none, 0⟩ ⟨0, 0, 0⟩ 0)).status = "critical" ∧
      ((calculateMrpSuggestions snapC7).getD 1 (readyResult ⟨0, "", "", none, 0⟩ ⟨0, 0, 0⟩ 0)).bottleneck = "No BOM Found") :=
  (C7_missing_bom snapC7).1 _ (by with_unfolding_all decide) (by with_unfolding_all decide)
    (by with_unfolding_all decide)

set_option maxRecDepth 2000 in
/-- **C7 counterexample** — a no-BOM line with outstanding need 7 > 0 but
with 3 units shipped from approved stock: its status is `"partial-ship"`, not
`"critical"`, and its bottleneck is the partial-ship text, not
`"No BOM Found"` — refuting the claim as stated. -/
theorem C7_counterexample :
    (calculateMrpSuggestions snapC7).map (fun r => (r.status, r.bottleneck, r.producibleQty)) =
      [("partial-ship", "Partial Ship: 3 / Prod. Needed: 7 / Producible: 0", 0),
        ("critical", "No BOM Found", 0)] ∧
    bomsFor snapC7.boms (pyStrip "FGG") = [] ∧
    (calculateMrpSuggestions snapC7).map (fun r => r.netQty) = [7, 4] := by
  with_unfolding_all decide

/-- When every BOM line is skipped, the first pass produces no calcs. -/
theorem buildCalcs_all_skip (compInv : List (String × CompInv)) (live : List (String × ℚ))
    (bl : List BomLine) (h : ∀ c ∈ bl, scrapQpu c ≤ 0) :
    buildCalcs compInv live bl = [] := by
  induction bl with
  | nil => rfl
  | cons c rest ih =>
    simp only [buildCalcs, List.filterMap_cons]
    rw [if_pos (h c (by simp))]
    exact ih (fun x hx => h x (by simp [hx]))

/-- When every BOM line is skipped, the second pass touches nothing and
yields no details. -/
theorem processComponents_all_skip (cctx : CompCtx) (comp : List (String × ℚ))
    (log : List (String × List AllocEntry)) (bl : List BomLine)
    (h : ∀ c ∈ bl, scrapQpu c ≤ 0) :
    processComponents cctx comp log bl = ⟨comp, log, []⟩ := by
  induction bl with
  | nil => rfl
  | cons c rest ih =>
    simp only [processComponents]
    rw [if_pos (h c (by simp))]
    exact ih (fun x hx => h x (by simp [hx]))

/-- Per-step analysis of an all-skipped BOM: no minimum is taken, producible
equals the full net production target, nothing is depleted, no details are
built, and — with no shipped stock and no job — the status is `"ok"`. -/
theorem processSO_C10_step (ctx : Ctx) (st : PoolState) (so : SalesOrder)
    (hbne : bomsFor ctx.boms (pyStrip so.part) ≠ [])
    (hall : ∀ c ∈ bomsFor ctx.boms (pyStrip so.part), scrapQpu c ≤ 0) :
    ((processSO ctx st so).2.materialStatus ∈ prodStatuses →
      ((processSO ctx st so).2.producibleQty = (processSO ctx st so).2.netQty ∧
        (processSO ctx st so).2.components = [] ∧
        (processSO ctx st so).2.bottleneckParts = [] ∧
        ((processSO ctx st so).2.shippableQty ≤ 0 → jobsForSo ctx.openJobs so.so = [] →
          (processSO ctx st so).2.status = "ok"))) ∧
    (processSO ctx st so).1.comp = st.comp ∧
    (processSO ctx st so).1.allocLog = st.allocLog := by
  have hbe : (bomsFor ctx.boms (pyStrip so.part)).isEmpty = false := by
    rcases hb : bomsFor ctx.boms (pyStrip so.part) with _ | ⟨c, cs⟩
    · exact absurd hb hbne
    · rfl
  simp only [processSO]
  split_ifs with h1 h2
  · refine ⟨?_, rfl, rfl⟩
    intro hm
    simp only [readyResult] at hm
    exact absurd hm (by decide)
  · refine ⟨?_, rfl, rfl⟩
    intro hm
    simp only [pendingQcResult] at hm
    exact absurd hm (by decide)
  · have hcalcs := buildCalcs_all_skip ctx.compInv st.comp _ hall
    have hpc2 := processComponents_all_skip
      ⟨ctx.compInv, ctx.purchaseOrders, so.so, so.ordQty,
        so.ordQty - min so.ordQty (dgetD st.fgA (pyStrip so.part) 0),
        so.ordQty - min so.ordQty (dgetD st.fgA (pyStrip so.part) 0)⟩
      st.comp st.allocLog _ hall
    simp only [prodBranch, hcalcs, hbe, Bool.false_eq_true, if_false, List.map_nil, minList,
      List.filter_nil, hpc2]
    refine ⟨?_, by trivial, by trivial⟩
    intro _
    refine ⟨by trivial, by trivial, by trivial, ?_⟩
    intro hship hjobs
    have hful : ¬ (0 < min so.ordQty (dgetD st.fgA (pyStrip so.part) 0)) := not_lt.mpr hship
    have hje : (jobsForSo ctx.openJobs so.so).isEmpty = true := by
      rw [hjobs]; rfl
    simp only [if_neg hful, hje, if_true, if_pos (le_refl _)]

/-- **C10 (amended)** — For every demand line that reached production
planning whose part has BOM lines but where every line has non-positive
scrap-adjusted quantity-per-unit: producible equals the full net production
target (no minimum over components is taken), the component-detail and
bottleneck-part lists are empty, no component pool or ledger entry is
touched, and — when nothing shipped from approved stock and the SO has no
open job — the status is `"ok"` (with stock shipped it becomes
`"partial-ship"`; with a job, `"job-created"`). -/
theorem C10_all_bom_lines_skipped (snap : Snapshot) :
    (∀ r ∈ calculateMrpSuggestions snap, r.materialStatus ∈ prodStatuses →
      bomsFor snap.boms (pyStrip r.so.part) ≠ [] →
      (∀ c ∈ bomsFor snap.boms (pyStrip r.so.part), scrapQpu c ≤ 0) →
      (r.producibleQty = r.netQty ∧ r.components = [] ∧ r.bottleneckParts = [] ∧
        (r.shippableQty ≤ 0 → jobsForSo snap.openJobs r.so.so = [] → r.status = "ok"))) ∧
    (∀ (st : PoolState) (so : SalesOrder), bomsFor snap.boms (pyStrip so.part) ≠ [] →
      (∀ c ∈ bomsFor snap.boms (pyStrip so.part), scrapQpu c ≤ 0) →
      (processSO (mkCtx snap) st so).1.comp = st.comp ∧
      (processSO (mkCtx snap) st so).1.allocLog = st.allocLog) := by
  constructor
  · intro r hr
    have hr' := (mem_calculateMrpSuggestions snap r).mp hr
    refine runLines_forall (P := fun r => r.materialStatus ∈ prodStatuses →
        bomsFor snap.boms (pyStrip r.so.part) ≠ [] →
        (∀ c ∈ bomsFor snap.boms (pyStrip r.so.part), scrapQpu c ≤ 0) →
        (r.producibleQty = r.netQty ∧ r.components = [] ∧ r.bottleneckParts = [] ∧
          (r.shippableQty ≤ 0 → jobsForSo snap.openJobs r.so.so = [] → r.status = "ok")))
      (I := fun _ => True) (Q := fun _ => True) (mkCtx snap) ?_ (fun _ _ _ _ => trivial)
      _ _ trivial (fun _ _ => trivial) r hr'
    intro st so _ _
    rw [processSO_so (mkCtx snap) st so]
    intro hm hbne hall
    exact (processSO_C10_step (mkCtx snap) st so hbne hall).1 hm
  · intro st so hbne hall
    exact ⟨(processSO_C10_step (mkCtx snap) st so hbne hall).2.1,
      (processSO_C10_step (mkCtx snap) st so hbne hall).2.2⟩

set_option maxRecDepth 2000 in
/-- **C10 witness** — a line whose only BOM entry has zero quantity, with no
stock and no job: producible equals the full net target with status `"ok"`
and no component details. -/
theorem C10_witness :
    ((calculateMrpSuggestions snapC10).getD 1 (readyResult ⟨0, "", "", none, 0⟩ ⟨0, 0, 0⟩ 0)).producibleQty
        = ((calculateMrpSuggestions snapC10).getD 1 (readyResult ⟨0, "", "", none, 0⟩ ⟨0, 0, 0⟩ 0)).netQty ∧
    ((calculateMrpSuggestions snapC10).getD 1 (readyResult ⟨0, "", "", none, 0⟩ ⟨0, 0, 0⟩ 0)).components = [] ∧
    ((calculateMrpSuggestions snapC10).getD 1 (readyResult ⟨0, "", "", none, 0⟩ ⟨0, 0, 0⟩ 0)).bottleneckParts = [] ∧
    (((calculateMrpSuggestions snapC10).getD 1 (readyResult ⟨0, "", "", none, 0⟩ ⟨0, 0, 0⟩ 0)).shippableQty ≤ 0 →
      jobsForSo snapC10.openJobs
          ((calculateMrpSuggestions snapC10).getD 1 (readyResult ⟨0, "", "", none, 0⟩ ⟨0, 0, 0⟩ 0)).so.so = [] →
      ((calculateMrpSuggestions snapC10).getD 1 (readyResult ⟨0, "", "", none, 0⟩ ⟨0, 0, 0⟩ 0)).status = "ok") :=
  (C10_all_bom_lines_skipped snapC10).1 _ (by with_unfolding_all decide)
    (by with_unfolding_all decide) (by with_unfolding_all decide) (by with_unfolding_all decide)

set_option maxRecDepth 2000 in
/-- **C10 counterexample** — a line whose every BOM entry is skipped but with
3 units shipped from approved stock: producible equals the full target 7, yet
the status is `"partial-ship"`, not `"ok"` — refuting the claim as stated. -/
theorem C10_counterexample :
    (calculateMrpSuggestions snapC10).map
        (fun r => (r.status, r.materialStatus, r.producibleQty, r.netQty, r.components.length)) =
      [("partial-ship", "partial-ship", 7, 7, 0), ("ok", "ok", 4, 4, 0)] ∧
    bomsFor snapC10.boms (pyStrip "FGJ") ≠ [] ∧
    (∀ c ∈ bomsFor snapC10.boms (pyStrip "FGJ"), scrapQpu c ≤ 0) ∧
    (calculateMrpSuggestions snapC10).map (fun r => r.shippableQty) = [3, 0] := by
  with_unfolding_all decide

/-! ## The priority sorter (C6) -/

/-- **C6 (amended)** — The priority sorter is a stable ascending sort by the
parsed due-date key: adjacent and therefore all pairs are ordered, the output
is a permutation of the input, every key class keeps its original order, and
a missing, empty or unparsable due date is assigned the far-future sentinel
`datetime.max.date()` (December 31, 9999).  A line *dated exactly*
`12/31/9999` shares the sentinel key, so sentinel lines sort after all lines
dated strictly earlier but only tie — in input order — with such lines. -/
theorem C6_priority_sorter (lines : List SalesOrder) :
    List.Pairwise (fun a b => getSortDate a ≤ getSortDate b) (prioritySort lines) ∧
    (prioritySort lines).Perm lines ∧
    (∀ k : Nat, (prioritySort lines).filter (fun so => getSortDate so == k)
        = lines.filter (fun so => getSortDate so == k)) ∧
    (∀ so : SalesOrder, so.dueToShip = none → getSortDate so = maxDateKey) ∧
    (∀ (so : SalesOrder) (s : String), so.dueToShip = some s → parseDateKey s = none →
      getSortDate so = maxDateKey) := by
  have hble : ∀ x y : Nat, Nat.ble x y = true ↔ x ≤ y := fun x y => iff_of_eq Nat.ble_eq
  refine ⟨?_, ?_, ?_, ?_, ?_⟩
  · have hp := pairwise_sortWith (fun a b => Nat.ble (getSortDate a) (getSortDate b))
      (fun x y hxy => by
        rw [hble]
        have := (Bool.not_eq_true _).mpr hxy
        rw [hble] at this
        omega)
      (fun x y z hxy hyz => by
        rw [hble] at hxy hyz ⊢
        omega)
      lines
    exact hp.imp (fun h => (hble _ _).mp h)
  · exact sortWith_perm _ lines
  · intro k
    exact filter_sortWith_eqKey getSortDate _ (fun x y hxy => by rw [hble, hxy]) lines k
  · intro so hso
    simp [getSortDate, hso]
  · intro so s hso hp
    by_cases hs : s = "" <;> simp [getSortDate, hso, hs, hp]

set_option maxRecDepth 2000 in
/-- **C6 witness** — the sentinel assignment and the resulting order at a
concrete pair of lines: the unparsable-dated line gets the sentinel key and
the dated line sorts first. -/
theorem C6_witness :
    getSortDate soC6a = maxDateKey ∧
    List.Pairwise (fun a b => getSortDate a ≤ getSortDate b) (prioritySort [soC6a, soC6c]) :=
  ⟨(C6_priority_sorter [soC6a, soC6c]).2.2.2.2 soC6a "garbage" rfl (by with_unfolding_all decide),
    (C6_priority_sorter [soC6a, soC6c]).1⟩

/-- **C6 counterexample** — `"12/31/9999"` parses to exactly the sentinel
key, so the unparsable-dated line soC6a does *not* sort after the dated line
soC6b: with input `[soC6a, soC6b]` the stable sort keeps the unparsable line
first, refuting "the sentinel sorts after all dated lines". -/
theorem C6_counterexample :
    parseDateKey "12/31/9999" = some maxDateKey ∧
    soC6a.dueToShip = some "garbage" ∧
    parseDateKey "garbage" = none ∧
    soC6b.dueToShip = some "12/31/9999" ∧
    prioritySort [soC6a, soC6b] = [soC6a, soC6b] := by
  refine ⟨?_, rfl, ?_, rfl, ?_⟩
  · with_unfolding_all rfl
  · with_unfolding_all rfl
  · with_unfolding_all rfl

/-! ## Shortage consolidation (C8) -/

/-- Fields of `updateRawShort`: the total grows by exactly the component's
shortfall and the part number is kept. -/
theorem updateRawShort_totalShortfall (soNum : Nat) (customer : String)
    (dueStr : Option String) (c : ComponentDetail) (r : RawShort) :
    (updateRawShort soNum customer dueStr c r).totalShortfall
      = r.totalShortfall + c.shortfall := by
  unfold updateRawShort
  rcases dueKeyOf dueStr with _ | k
  · rfl
  · by_cases hk : k < r.earliestDueKey <;> simp [hk]

/-- `updateRawShort` keeps the record's part number. -/
theorem updateRawShort_partNumber (soNum : Nat) (customer : String)
    (dueStr : Option String) (c : ComponentDetail) (r : RawShort) :
    (updateRawShort soNum customer dueStr c r).partNumber = r.partNumber := by
  unfold updateRawShort
  rcases dueKeyOf dueStr with _ | k
  · rfl
  · by_cases hk : k < r.earliestDueKey <;> simp [hk]

/-- Key membership is membership in the key list. -/
theorem dmem_iff_mem_keys {β : Type} (m : List (String × β)) (k : String) :
    dmem m k = true ↔ k ∈ m.map Prod.fst := by
  induction m with
  | nil => simp [dmem, dget?]
  | cons a rest ih =>
    obtain ⟨ka, va⟩ := a
    by_cases hk : ka = k
    · subst hk
      simp [dmem, dget?]
    · have h1 : dmem ((ka, va) :: rest) k = dmem rest k := by simp [dmem, dget?, hk]
      rw [h1, ih, List.map_cons, List.mem_cons]
      constructor
      · exact fun h => Or.inr h
      · rintro (h | h)
        · exact absurd h.symm hk
        · exact h

/-- `dmodify` does not change the key list. -/
theorem dmodify_keys {β : Type} (m : List (String × β)) (k : String) (f : β → β) :
    (dmodify m k f).map Prod.fst = m.map Prod.fst := by
  induction m with
  | nil => rfl
  | cons a rest ih =>
    obtain ⟨ka, va⟩ := a
    by_cases hk : ka = k <;> simp [dmodify, hk, ih]

/-- Members of a `dmodify` image: either untouched or the modified binding. -/
theorem mem_dmodify {β : Type} (m : List (String × β)) (k : String) (f : β → β) :
    ∀ kv ∈ dmodify m k f, kv ∈ m ∨ ∃ v, (k, v) ∈ m ∧ kv = (k, f v) := by
  induction m with
  | nil => intro kv hkv; simp [dmodify] at hkv
  | cons a rest ih =>
    obtain ⟨ka, va⟩ := a
    intro kv hkv
    by_cases hk : ka = k
    · subst hk
      simp only [dmodify, if_pos rfl] at hkv
      rcases List.mem_cons.mp hkv with h | h
      · exact Or.inr ⟨va, List.mem_cons_self _ _, h⟩
      · exact Or.inl (List.mem_cons_of_mem _ h)
    · simp only [dmodify, if_neg hk] at hkv
      rcases List.mem_cons.mp hkv with h | h
      · exact Or.inl (by rw [h]; exact List.mem_cons_self _ _)
      · rcases ih kv h with h' | ⟨v, hv, hkv'⟩
        · exact Or.inl (List.mem_cons_of_mem _ h')
        · exact Or.inr ⟨v, List.mem_cons_of_mem _ hv, hkv'⟩

/-- With duplicate-free keys, every binding is what lookup returns. -/
theorem dget?_of_mem_nodup {β : Type} (m : List (String × β)) (kv : String × β)
    (hmem : kv ∈ m) (hnd : (m.map Prod.fst).Nodup) : dget? m kv.1 = some kv.2 := by
  induction m with
  | nil => simp at hmem
  | cons a rest ih =>
    obtain ⟨ka, va⟩ := a
    simp only [List.map_cons, List.nodup_cons] at hnd
    rcases List.mem_cons.mp hmem with h | h
    · rw [h]
      simp [dget?]
    · have hne : ¬ ka = kv.1 := by
        intro he
        exact hnd.1 (he ▸ List.mem_map_of_mem Prod.fst h)
      simp only [dget?, if_neg hne]
      exact ih h hnd.2

/-- One `addShortage` call: keys stay duplicate-free, every binding keeps a
consistent non-reserved part number, and the accumulated total of every
non-reserved part grows by exactly this component's counted shortfall. -/
theorem addShortage_spec (soNum : Nat) (customer : String) (dueStr : Option String)
    (m : List (String × RawShort)) (c : ComponentDetail)
    (hnd : (m.map Prod.fst).Nodup)
    (hcons : ∀ kv ∈ m, kv.1 = kv.2.partNumber ∧ startsWithW kv.1 = false) :
    ((addShortage soNum customer dueStr m c).map Prod.fst).Nodup ∧
    (∀ kv ∈ addShortage soNum customer dueStr m c,
        kv.1 = kv.2.partNumber ∧ startsWithW kv.1 = false) ∧
    (∀ p, startsWithW p = false →
      entryTotal (addShortage soNum customer dueStr m c) p
        = entryTotal m p + (if c.partNumber = p ∧ 0 < c.shortfall then c.shortfall else 0)) := by
  by_cases hpos : 0 < c.shortfall
  · by_cases hW : startsWithW c.partNumber
    · simp only [addShortage, if_pos hpos, if_pos hW]
      refine ⟨hnd, hcons, ?_⟩
      intro p hp
      rw [if_neg ?_]
      · ring
      · rintro ⟨he, -⟩
        rw [he] at hW
        rw [hp] at hW
        exact Bool.false_ne_true hW
    · simp only [addShortage, if_pos hpos, if_neg hW]
      set m1 := if dmem m c.partNumber then m
        else m ++ [(c.partNumber,
          ⟨c.partNumber, c.description, c.onHandInitial, c.openPoQty, 0, [], [], farFutureKey⟩)] with hm1
      have hnd1 : (m1.map Prod.fst).Nodup := by
        rw [hm1]
        split_ifs with hmem
        · exact hnd
        · have hk : c.partNumber ∉ m.map Prod.fst := by
            intro hin
            rw [← dmem_iff_mem_keys] at hin
            simp [hin] at hmem
          simp [List.nodup_append, hnd, hk]
      have hcons1 : ∀ kv ∈ m1, kv.1 = kv.2.partNumber ∧ startsWithW kv.1 = false := by
        rw [hm1]
        split_ifs with hmem
        · exact hcons
        · intro kv hkv
          rcases List.mem_append.mp hkv with h | h
          · exact hcons kv h
          · simp only [List.mem_singleton] at h
            rw [h]
            exact ⟨rfl, by simpa using hW⟩
      have hmem1 : dmem m1 c.partNumber = true := by
        rw [hm1]
        exact dmem_ensure m c.partNumber _
      refine ⟨?_, ?_, ?_⟩
      · rw [dmodify_keys]
        exact hnd1
      · intro kv hkv
        rcases mem_dmodify m1 c.partNumber _ kv hkv with h | ⟨v, hv, hkv'⟩
        · exact hcons1 kv h
        · have hc := hcons1 (c.partNumber, v) hv
          rw [hkv']
          refine ⟨?_, hc.2⟩
          rw [updateRawShort_partNumber]
          exact hc.1
      · intro p hp
        by_cases hep : c.partNumber = p
        · subst hep
          have h1 : entryTotal m1 c.partNumber = entryTotal m c.partNumber := by
            rw [hm1]
            split_ifs with hmem
            · rfl
            · unfold entryTotal
              rw [dget?_append_single]
              rcases hg : dget? m c.partNumber with _ | v
              · simp [dmem, hg] at hmem ⊢
              · simp [dmem, hg] at hmem
          unfold dmem at hmem1
          rcases hg1 : dget? m1 c.partNumber with _ | v
          · rw [hg1] at hmem1; simp at hmem1
          · have h3 : entryTotal (dmodify m1 c.partNumber (updateRawShort soNum customer dueStr c))
                c.partNumber = v.totalShortfall + c.shortfall := by
              unfold entryTotal
              rw [dget?_dmodify, if_pos rfl, hg1]
              simp [updateRawShort_totalShortfall]
            have h1' : entryTotal m1 c.partNumber = v.totalShortfall := by
              unfold entryTotal
              rw [hg1]
              rfl
            rw [h3, if_pos ⟨rfl, hpos⟩, ← h1, h1']
        · unfold entryTotal
          rw [dget?_dmodify, if_neg hep]
          have h2 : dget? m1 p = dget? m p := by
            rw [hm1]
            split_ifs with hmem
            · rfl
            · rw [dget?_append_single]
              rcases hg : dget? m p with _ | v
              · simp [if_neg hep]
              · rfl
          rw [h2, if_neg (fun h => hep h.1)]
          ring
  · simp only [addShortage, if_neg hpos]
    refine ⟨hnd, hcons, ?_⟩
    intro p hp
    rw [if_neg (fun h => hpos h.2)]
    ring

/-- Peeling one component off the counted-shortfall sum. -/
theorem compPosSum_cons (c : ComponentDetail) (cs : List ComponentDetail) (p : String) :
    compPosSum (c :: cs) p
      = (if c.partNumber = p ∧ 0 < c.shortfall then c.shortfall else 0) + compPosSum cs p := by
  unfold compPosSum
  rw [List.filter_cons]
  by_cases h : (c.partNumber == p && decide (0 < c.shortfall)) = true
  · rw [if_pos h]
    have h' : c.partNumber = p ∧ 0 < c.shortfall := by
      simpa [Bool.and_eq_true, beq_iff_eq, decide_eq_true_eq] using h
    rw [if_pos h']
    simp
  · rw [if_neg h]
    have h' : ¬ (c.partNumber = p ∧ 0 < c.shortfall) := by
      simpa [Bool.and_eq_true, beq_iff_eq, decide_eq_true_eq] using h
    rw [if_neg h']
    ring

/-- With nonnegative shortfalls, counting only positive ones loses nothing. -/
theorem compPosSum_eq_full (cs : List ComponentDetail) (p : String)
    (h : ∀ c ∈ cs, 0 ≤ c.shortfall) :
    compPosSum cs p = ((cs.filter (fun c => c.partNumber == p)).map (fun c => c.shortfall)).sum := by
  induction cs with
  | nil => rfl
  | cons c rest ih =>
    rw [compPosSum_cons, ih (fun x hx => h x (by simp [hx]))]
    rw [List.filter_cons]
    by_cases hp : (c.partNumber == p) = true
    · rw [if_pos hp]
      by_cases hs : 0 < c.shortfall
      · rw [if_pos ⟨by simpa [beq_iff_eq] using hp, hs⟩]
        simp
      · have hz : c.shortfall = 0 := le_antisymm (not_lt.mp hs) (h c (by simp))
        rw [if_neg (fun hc => hs hc.2)]
        simp [hz]
    · rw [if_neg hp, if_neg (fun hc => hp (by simp [beq_iff_eq, hc.1]))]
      ring

/-- The component fold of one result: keys stay duplicate-free and
consistent, and every non-reserved part's accumulated total grows by exactly
that result's counted shortfalls. -/
theorem addShortage_foldl (soNum : Nat) (customer : String) (dueStr : Option String) :
    ∀ (cs : List ComponentDetail) (m : List (String × RawShort)),
      (m.map Prod.fst).Nodup →
      (∀ kv ∈ m, kv.1 = kv.2.partNumber ∧ startsWithW kv.1 = false) →
      (((cs.foldl (addShortage soNum customer dueStr) m).map Prod.fst).Nodup ∧
        (∀ kv ∈ cs.foldl (addShortage soNum customer dueStr) m,
          kv.1 = kv.2.partNumber ∧ startsWithW kv.1 = false) ∧
        (∀ p, startsWithW p = false →
          entryTotal (cs.foldl (addShortage soNum customer dueStr) m) p
            = entryTotal m p + compPosSum cs p)) := by
  intro cs
  induction cs with
  | nil =>
    intro m hnd hcons
    refine ⟨hnd, hcons, ?_⟩
    intro p _
    simp [compPosSum]
  | cons c rest ih =>
    intro m hnd hcons
    have hstep := addShortage_spec soNum customer dueStr m c hnd hcons
    have hrec := ih (addShortage soNum customer dueStr m c) hstep.1 hstep.2.1
    refine ⟨hrec.1, hrec.2.1, ?_⟩
    intro p hp
    simp only [List.foldl_cons]
    rw [hrec.2.2 p hp, hstep.2.2 p hp, compPosSum_cons]
    ring

/-- The result fold of the consolidator: same invariants, accumulating the
counted shortfalls of every processed result. -/
theorem consolidateStep_foldl (results : List OrderResult) :
    ∀ acc : List (String × RawShort) × List String,
      (acc.1.map Prod.fst).Nodup →
      (∀ kv ∈ acc.1, kv.1 = kv.2.partNumber ∧ startsWithW kv.1 = false) →
      (((results.foldl consolidateStep acc).1.map Prod.fst).Nodup ∧
        (∀ kv ∈ (results.foldl consolidateStep acc).1,
          kv.1 = kv.2.partNumber ∧ startsWithW kv.1 = false) ∧
        (∀ p, startsWithW p = false →
          entryTotal (results.foldl consolidateStep acc).1 p
            = entryTotal acc.1 p + posShortfallSum results p)) := by
  induction results with
  | nil =>
    intro acc hnd hcons
    refine ⟨hnd, hcons, ?_⟩
    intro p _
    simp [posShortfallSum]
  | cons r rest ih =>
    intro acc hnd hcons
    have hstep := addShortage_foldl r.so.so r.so.customer r.so.dueToShip r.components acc.1 hnd hcons
    have hrec := ih (consolidateStep acc r) hstep.1 hstep.2.1
    refine ⟨hrec.1, hrec.2.1, ?_⟩
    intro p hp
    simp only [List.foldl_cons]
    rw [hrec.2.2 p hp]
    have : entryTotal (consolidateStep acc r).1 p = entryTotal acc.1 p + compPosSum r.components p :=
      hstep.2.2 p hp
    rw [this]
    simp only [posShortfallSum, List.map_cons, List.sum_cons]
    show entryTotal acc.1 p + compPosSum r.components p + (rest.map (fun r => compPosSum r.components p)).sum
      = entryTotal acc.1 p + (compPosSum r.components p + (rest.map (fun r => compPosSum r.components p)).sum)
    ring

/-- Rendering keeps part number and total shortfall. -/
theorem renderShort_fields (r : RawShort) :
    (renderShort r).partNumber = r.partNumber ∧
    (renderShort r).totalShortfall = r.totalShortfall := ⟨rfl, rfl⟩

/-- The sentinel earliest due date renders as absent, and only it. -/
theorem renderShort_sentinel (r : RawShort) :
    (renderShort r).earliestDueDate = none ↔ r.earliestDueKey = farFutureKey := by
  unfold renderShort
  by_cases h : r.earliestDueKey = farFutureKey <;> simp [h]

/-- Every detail the second BOM pass emits has nonnegative shortfall. -/
theorem processComponents_details_nonneg (cctx : CompCtx) :
    ∀ (bl : List BomLine) (comp : List (String × ℚ)) (log : List (String × List AllocEntry)),
      ∀ d ∈ (processComponents cctx comp log bl).details, 0 ≤ d.shortfall := by
  intro bl
  induction bl with
  | nil => intro comp log d hd; simp [processComponents] at hd
  | cons c rest ih =>
    intro comp log d hd
    by_cases hq : scrapQpu c ≤ 0
    · rw [processComponents, if_pos hq] at hd
      exact ih comp log d hd
    · rw [processComponents, if_neg hq] at hd
      rcases List.mem_cons.mp hd with h | h
      · rw [h]
        exact le_max_left 0 _
      · exact ih _ _ d h

/-- Every component detail the engine emits has nonnegative shortfall. -/
theorem processSO_shortfalls_nonneg (ctx : Ctx) (st : PoolState) (so : SalesOrder) :
    ∀ c ∈ (processSO ctx st so).2.components, 0 ≤ c.shortfall := by
  simp only [processSO]
  split_ifs with h1 h2
  · intro c hc; simp [readyResult] at hc
  · intro c hc; simp [pendingQcResult] at hc
  · simp only [prodBranch]
    intro c hc
    exact processComponents_details_nonneg _ _ _ _ c hc

/-- Run-level: every shortfall field in the engine's output is nonnegative
(`shortfall = max(0, …)`). -/
theorem engine_shortfalls_nonneg (snap : Snapshot) :
    ∀ r ∈ calculateMrpSuggestions snap, ∀ c ∈ r.components, 0 ≤ c.shortfall := by
  intro r hr
  have hr' := (mem_calculateMrpSuggestions snap r).mp hr
  exact runLines_forall (P := fun r => ∀ c ∈ r.components, 0 ≤ c.shortfall)
    (I := fun _ => True) (Q := fun _ => True) (mkCtx snap)
    (fun st so _ _ => processSO_shortfalls_nonneg (mkCtx snap) st so)
    (fun _ _ _ _ => trivial) _ _ trivial (fun _ _ => trivial) r hr'

/-- With nonnegative shortfalls the counted sum is the full sum. -/
theorem posSum_eq_fullSum (rs : List OrderResult) (p : String)
    (hnn : ∀ r ∈ rs, ∀ c ∈ r.components, 0 ≤ c.shortfall) :
    posShortfallSum rs p = fullShortfallSum rs p := by
  induction rs with
  | nil => rfl
  | cons r rest ih =>
    have h1 : posShortfallSum (r :: rest) p
        = compPosSum r.components p + posShortfallSum rest p := by
      simp [posShortfallSum]
    have h2 : fullShortfallSum (r :: rest) p
        = ((r.components.filter (fun c => c.partNumber == p)).map (fun c => c.shortfall)).sum
          + fullShortfallSum rest p := by
      simp [fullShortfallSum]
    rw [h1, h2, compPosSum_eq_full r.components p (hnn r (by simp)),
      ih (fun x hx => hnn x (by simp [hx]))]

/-- Consolidator specification over an arbitrary result list with
nonnegative shortfalls: reserved-prefix parts are excluded, totals are exact
sums, and the output is sorted by part number. -/
theorem consolidate_spec (results : List OrderResult)
    (hnn : ∀ r ∈ results, ∀ c ∈ r.components, 0 ≤ c.shortfall) :
    (∀ e ∈ (consolidate results).1, startsWithW e.partNumber = false) ∧
    (∀ e ∈ (consolidate results).1, e.totalShortfall = fullShortfallSum results e.partNumber) ∧
    List.Pairwise (fun a b => strLe a.partNumber b.partNumber = true) (consolidate results).1 := by
  have hfold := consolidateStep_foldl results ([], []) (by simp) (by simp)
  have htot : ∀ p, startsWithW p = false →
      entryTotal (results.foldl consolidateStep ([], [])).1 p = posShortfallSum results p := by
    intro p hp
    have h := hfold.2.2 p hp
    rw [h]
    have : entryTotal (([], []) : List (String × RawShort) × List String).1 p = 0 := by
      simp [entryTotal, dget?]
    rw [this]
    ring
  have hmem : ∀ e ∈ (consolidate results).1,
      ∃ kv ∈ (results.foldl consolidateStep ([], [])).1, e = renderShort kv.2 := by
    intro e he
    unfold consolidate at he
    simp only [List.mem_map] at he
    obtain ⟨v, hv, hev⟩ := he
    rw [mem_sortWith] at hv
    simp only [List.mem_map] at hv
    obtain ⟨kv, hkv, hvkv⟩ := hv
    exact ⟨kv, hkv, by rw [← hev, ← hvkv]⟩
  refine ⟨?_, ?_, ?_⟩
  · intro e he
    obtain ⟨kv, hkv, he'⟩ := hmem e he
    have hc := hfold.2.1 kv hkv
    rw [he', (renderShort_fields kv.2).1, ← hc.1]
    exact hc.2
  · intro e he
    obtain ⟨kv, hkv, he'⟩ := hmem e he
    have hc := hfold.2.1 kv hkv
    have hlk := dget?_of_mem_nodup _ kv hkv hfold.1
    have hentry : entryTotal (results.foldl consolidateStep ([], [])).1 kv.1
        = kv.2.totalShortfall := by
      unfold entryTotal
      rw [hlk]
      rfl
    have hW' : startsWithW kv.2.partNumber = false := hc.1 ▸ hc.2
    have h1 := htot kv.2.partNumber hW'
    rw [he', (renderShort_fields kv.2).2, (renderShort_fields kv.2).1]
    calc kv.2.totalShortfall
        = entryTotal (results.foldl consolidateStep ([], [])).1 kv.1 := hentry.symm
      _ = posShortfallSum results kv.2.partNumber := by rw [hc.1]; exact h1
      _ = fullShortfallSum results kv.2.partNumber := posSum_eq_fullSum results _ hnn
  · unfold consolidate
    rw [List.pairwise_map]
    have hp := pairwise_sortWith (fun a b : RawShort => strLe a.partNumber b.partNumber)
      (fun x y hxy => strLe_total _ _ hxy)
      (fun x y z hxy hyz => strLe_trans _ _ _ hxy hyz)
      ((results.foldl consolidateStep ([], [])).1.map (fun kv => kv.2))
    exact hp.imp (fun hab => by
      rw [(renderShort_fields _).1, (renderShort_fields _).1]
      exact hab)

/-- **C8** — In the consolidated-shortage output: no entry's part starts with
the reserved prefix `W`; every entry's `total_shortfall` equals the sum of
that part's `shortfall` fields over all component details of all results;
the list is sorted ascending by part number; and the far-future sentinel
earliest due date (and only it) is rendered as absent. -/
theorem C8_shortage_consolidation (snap : Snapshot) :
    (∀ e ∈ (getConsolidatedShortages snap).1, startsWithW e.partNumber = false) ∧
    (∀ e ∈ (getConsolidatedShortages snap).1,
      e.totalShortfall = fullShortfallSum (calculateMrpSuggestions snap) e.partNumber) ∧
    List.Pairwise (fun a b => strLe a.partNumber b.partNumber = true)
      (getConsolidatedShortages snap).1 ∧
    (∀ r : RawShort, (renderShort r).earliestDueDate = none ↔ r.earliestDueKey = farFutureKey) := by
  have h := consolidate_spec (calculateMrpSuggestions snap) (engine_shortfalls_nonneg snap)
  exact ⟨h.1, h.2.1, h.2.2, renderShort_sentinel⟩

set_option maxRecDepth 4000 in
/-- **C8 witness** — the properties at the single concrete entry of a run
with one genuine component shortage and one reserved-prefix shortage (the
`W` part is excluded from the output, the `CE` total is the full 38). -/
theorem C8_witness :
    startsWithW entC8.partNumber = false ∧
    entC8.totalShortfall = fullShortfallSum (calculateMrpSuggestions snapC8) entC8.partNumber ∧
    (renderShort ⟨"CE", "c-e", 50, 0, 38, [], [], farFutureKey⟩).earliestDueDate = none :=
  have hmem : entC8 ∈ (getConsolidatedShortages snapC8).1 := by
    have h : (getConsolidatedShortages snapC8).1 = [entC8] := by with_unfolding_all rfl
    rw [h]
    exact List.mem_singleton_self entC8
  ⟨(C8_shortage_consolidation snapC8).1 entC8 hmem,
    (C8_shortage_consolidation snapC8).2.1 entC8 hmem,
    ((C8_shortage_consolidation snapC8).2.2.2 _).mpr rfl⟩
